import Mathlib

/-!
Shallow embedding of `sciolitario.py` (a single-player patience game engine):
cards, decks, the discard pile, the triangular tableau with its uncovering
algorithm, and the game manager's selection/pairing state machine.

Python mutable objects are modelled by explicit state passing.  Python lists
keep their index order (index 0 = Python index 0, the "top" of a pile is the
*last* element, as in `list.append` / `list.pop`).  The insertion-ordered
Python `dict` of the tableau is modelled as an association list; writing to an
existing key updates the value in place, otherwise the pair is appended, which
is exactly CPython's dict semantics.  Fallible Python code (exceptions) is
modelled with `Option` / `Except`.
-/

namespace Sciolitario

inductive Suit
  | Spades
  | Hearts
  | Diamonds
  | Clubs
deriving DecidableEq, Repr

/-- A card: identity (suit, rank) plus the mutable visibility flag. -/
structure Card where
  suit : Suit
  rank : Nat
  isCovered : Bool
deriving DecidableEq, Repr

/-- The (suit, rank) identity of a card, unique across the 40-card deck. -/
def cId (c : Card) : Suit × Nat := (c.suit, c.rank)

/-- `Card.canPair`: ranks sum to exactly ten. -/
def Card.canPair (c d : Card) : Bool := c.rank + d.rank == 10

/-- `Card.isExactly`: identity-free suit+rank equality check. -/
def Card.isExactly (c : Card) (s : Suit) (r : Nat) : Bool := decide (c.suit = s ∧ c.rank = r)

/-- `Card.FACE_NAMES` tuple from the source. -/
def faceNames : List String := ["Jack", "Queen", "King", "Ace"]

/-- `Card._getRankStr(asSymbol = False)`: rank 1 is Ace, ranks above 7 index into
the 4-element face-name tuple (an out-of-range index, i.e. rank ≥ 12, raises
`IndexError`, modelled as `none`), anything else is printed as a numeral. -/
def getRankName (rank : Nat) : Option String :=
  if rank = 1 then faceNames[3]?
  else if rank > 7 then faceNames[rank - 8]?
  else some (toString rank)

/-- `Card.__init__`: stores suit and rank unvalidated, computes the display name
(the only failure possibility, an `IndexError` for rank ≥ 12), and starts
covered.  There is no rank-range validation here. -/
def Card.init (suit : Suit) (rank : Nat) : Option Card :=
  (getRankName rank).map fun _ => { suit := suit, rank := rank, isCovered := true }

/-- `intoRank`: the only rank validation in the program.  `none` models the
`ValueError` raised for a rank outside [1, 10]. -/
def intoRank (n : Nat) : Option Nat := if n < 1 ∨ n > 10 then none else some n

/-! ## Deck and DiscardPile

A deck is a Python list of cards; the top is the last element. -/

/-- Python `cards[-2]`: the second-from-top; `IndexError` (`none`) when the
list has fewer than two elements. -/
def secondLast (cs : List Card) : Option Card :=
  if cs.length < 2 then none else cs[cs.length - 2]?

/-- `Deck.draw`: pop the top card and uncover it; `none` models `DrawEmptyErr`. -/
def Deck.draw (cs : List Card) : Option (Card × List Card) :=
  match cs.getLast? with
  | none => none
  | some c => some ({ c with isCovered := false }, cs.dropLast)

/-- `Deck.put`: append at the top. -/
def Deck.put (cs : List Card) (c : Card) : List Card := cs ++ [c]

/-- `Deck.select`: the top card if it matches, else nothing. -/
def Deck.select (cs : List Card) (s : Suit) (r : Nat) : Option Card :=
  match cs.getLast? with
  | none => none
  | some top => if top.isExactly s r then some top else none

/-- `DiscardPile.select`: top first, then, if at least two cards exist, the
second-from-top. -/
def DiscardPile.select (cs : List Card) (s : Suit) (r : Nat) : Option Card :=
  match Deck.select cs s r with
  | some top => some top
  | none =>
    if cs.length < 2 then none
    else
      match secondLast cs with
      | some next => if next.isExactly s r then some next else none
      | none => none

/-- Python `cards.pop(-2)`: delete the second-from-top element. -/
def popSecondLast (cs : List Card) : List Card :=
  cs.take (cs.length - 2) ++ cs.drop (cs.length - 1)

/-- `DiscardPile.remove`: succeeds (returning the new pile) iff the card is the
top or, when at least two cards exist, the second-from-top; `none` models the
`False` return. -/
def DiscardPile.remove (cs : List Card) (card : Card) : Option (List Card) :=
  if cs.isEmpty then none
  else if cs.getLast? = some card then some cs.dropLast
  else if 1 < cs.length ∧ secondLast cs = some card then some (popSecondLast cs)
  else none

/-! ## Tableau -/

/-- The tableau's insertion-ordered dict, keyed by card identity. -/
abbrev TKey := Suit × Nat
abbrev TDict := List (TKey × Option Card)

def dictValues (d : TDict) : List (Option Card) := d.map (·.2)

def dictKeys (d : TDict) : List TKey := d.map (·.1)

/-- `dict.get(k)`: `none` for a missing key, `some v` otherwise. -/
def dictGet (d : TDict) (k : TKey) : Option (Option Card) :=
  (d.find? fun kv => decide (kv.1 = k)).map (·.2)

/-- `d[k] = v` with CPython dict semantics: an existing key keeps its position
and gets the new value; a fresh key is appended at the end. -/
def dictSet (d : TDict) (k : TKey) (v : Option Card) : TDict :=
  match d with
  | [] => [(k, v)]
  | kv :: rest => if kv.1 = k then (k, v) :: rest else kv :: dictSet rest k v

/-- Write a value at a given position, keeping the key (models a Python
attribute write on the object stored at that position). -/
def setValAt (d : TDict) (i : Nat) (v : Option Card) : TDict :=
  match d[i]? with
  | some kv => d.set i (kv.1, v)
  | none => d

/-- `<card at position i>.isCovered = False`; `none` models the
`AttributeError` raised when the slot holds `None`. -/
def uncoverAt (d : TDict) (i : Nat) : Option TDict :=
  match (dictValues d)[i]? with
  | some (some c) => some (setValAt d i (some { c with isCovered := false }))
  | _ => none

/-- `Table._getCombinations(n) = (n + 1) * n // 2`. -/
def comb (n : Nat) : Nat := (n + 1) * n / 2

/-- Floor square root by downward structural search: the largest `s ≤ fuel`
with `s * s ≤ n`.  Structural recursion keeps concrete values kernel-reducible. -/
def isqrtLoop : Nat → Nat → Nat
  | 0, _ => 0
  | s + 1, n => if (s + 1) * (s + 1) ≤ n then s + 1 else isqrtLoop s n

/-- `int((-1 + (1 + 8*p) ** 0.5) // 2)`.  For every position in range
(p ≤ 26, so 1 + 8p ≤ 209) the float square root is exact enough that the
Python expression equals this integer floor-sqrt formula. -/
def rowOf (p : Nat) : Nat := (isqrtLoop (1 + 8 * p) (1 + 8 * p) - 1) / 2

/-- Python wrap-around list indexing: a negative index counts from the end;
`none` models `IndexError`. -/
def pyIdx (len : Nat) (i : Int) : Option Nat :=
  if 0 ≤ i then (if i < (len : Int) then some i.toNat else none)
  else if (-i).toNat ≤ len then some (len - (-i).toNat) else none

structure Table where
  nRows : Nat
  nCards : Nat
  cards : TDict
  lastRowExists : Bool
deriving DecidableEq, Repr

/-- `Table.__init__(deck)` with the default `nRows = 6`: `nCards = C(6)+6 = 27`
cards are taken *from the front* of the draw-pile list (`deck.cards[:nCards]`),
entered into the dict in that order, the last `nRows` of them (the special row)
are uncovered, and exactly those cards are deleted from the draw pile
(`del deck.cards[:nCards]`).  Returns the table and the remaining draw pile. -/
def Table.init (deck : List Card) : Table × List Card :=
  let nRows := 6
  let nCards := comb nRows + nRows
  let d0 : TDict := (deck.take nCards).foldl (fun d c => dictSet d (cId c) (some c)) []
  let d1 : TDict :=
    ((deck.take nCards).drop (nCards - nRows)).foldl
      (fun d c => dictSet d (cId c) (some { c with isCovered := false })) d0
  ({ nRows := nRows, nCards := nCards, cards := d1, lastRowExists := true }, deck.drop nCards)

/-- `Table.select`: the card at that key, only if present and uncovered. -/
def Table.select (t : Table) (s : Suit) (r : Nat) : Option Card :=
  match dictGet t.cards (s, r) with
  | some (some c) => if c.isCovered then none else some c
  | _ => none

/-- The uncover phase of `Table.remove` (lines 150-160 of the source): the
captured neighbor references `li`/`ri` are the already-wrap-resolved list
indices of `cards[p-y-1]` and `cards[p-y]`.  Special last-row branch uncovers
only the right reference; the general branch performs the two guarded
uncover writes.  `none` models `AttributeError` on a `None` slot. -/
def removeStep1 (t : Table) (cards : List (Option Card)) (p li ri : Nat) : Option TDict :=
  let y := rowOf p
  let x := p - comb y
  if t.lastRowExists && (y == t.nRows) then
    uncoverAt t.cards ri
  else
    let afterLeft : Option TDict :=
      if x ≠ 0 then
        match cards[p - 1]? with
        | none => none
        | some none => uncoverAt t.cards li
        | some (some _) => some t.cards
      else some t.cards
    match afterLeft with
    | none => none
    | some dL =>
      if x < y then
        match cards[p + 1]? with
        | none => none
        | some none => uncoverAt dL ri
        | some (some _) => some dL
      else some dL

/-- `Table.remove`, the central uncovering algorithm, translated line by line.
`none` models any Python exception (`ValueError` from `list.index`,
`IndexError`, or `AttributeError` when an uncover write targets a `None`
slot). -/
def Table.remove (t : Table) (card : Card) : Option Table :=
  let cards := dictValues t.cards
  let p := cards.findIdx fun o => decide (o = some card)
  if p = cards.length then none
  else
    match pyIdx cards.length ((p : Int) - (rowOf p : Int) - 1),
        pyIdx cards.length ((p : Int) - (rowOf p : Int)) with
    | some li, some ri =>
      match removeStep1 t cards p li ri with
      | none => none
      | some d1 =>
        let d2 := dictSet d1 (cId card) none
        let cardsAfter := (dictValues d1).set p none
        let window := (cardsAfter.drop (t.nCards - t.nRows)).take (t.nCards - (t.nCards - t.nRows))
        if (window.filter fun o => o.isSome).isEmpty then
          some { nRows := if t.lastRowExists then t.nRows else t.nRows - 1
                 nCards := t.nCards - t.nRows
                 cards := d2
                 lastRowExists := false }
        else
          some { t with cards := d2 }
    | _, _ => none

/-! ## GameManager -/

structure GameManager where
  deck : List Card
  pile : List Card
  comp : List Card
  table : Table
  isPile2ndSelected : Bool
deriving DecidableEq, Repr

/-- The ten cards of one suit, in creation order (`for rank in range(1, 11)`). -/
def suitCards (s : Suit) : List Card :=
  (List.range 10).map fun i => { suit := s, rank := i + 1, isCovered := true }

/-- `Deck(filled = True)` before shuffling: 4 suits × ranks 1..10, in
enumeration order.  The shuffle is an arbitrary permutation of this list. -/
def fullDeck : List Card :=
  suitCards .Spades ++ suitCards .Hearts ++ suitCards .Diamonds ++ suitCards .Clubs

/-- `GameManager.__init__`, taking the already-shuffled draw pile. -/
def GameManager.init (deck : List Card) : GameManager :=
  let td := Table.init deck
  { deck := td.2, pile := [], comp := [], table := td.1, isPile2ndSelected := false }

/-- `GameManager.drawAndDiscard`; `none` models `DrawEmptyErr`. -/
def drawAndDiscard (g : GameManager) : Option GameManager :=
  match Deck.draw g.deck with
  | none => none
  | some (c, deck) => some { g with deck := deck, pile := Deck.put g.pile c }

/-- `GameManager._removeCard`: try the discard pile, fall back to the tableau,
then move the card (re-covered) to the completed pile.  `none` models an
exception escaping `Table.remove`. -/
def removeCard (g : GameManager) (card : Card) : Option GameManager :=
  match DiscardPile.remove g.pile card with
  | some pile => some { g with pile := pile, comp := Deck.put g.comp { card with isCovered := true } }
  | none =>
    match Table.remove g.table card with
    | some table =>
      some { g with table := table, comp := Deck.put g.comp { card with isCovered := true } }
    | none => none

/-- The two `InvalidActionErr.ActionType` values. -/
inductive ActionType
  | cardSelection
  | pairing
deriving DecidableEq, Repr

/-- The distinct `details` messages an `InvalidActionErr` is raised with. -/
inductive ErrDetail
  | belowTopOfPile
  | couldNotIdentify
  | rankOutOfRange
  | unavailable (s : Suit) (r : Nat)
  | onlyKingsSingle
  | moreThanTwoSelected
  | badRankSum (n : Nat)
  | pairWithSelf
deriving DecidableEq, Repr

/-- Errors: recoverable `InvalidActionErr`s, the fatal `DrawEmptyErr`, and raw
Python exceptions (`IndexError` on the input list, exceptions out of
`Table.remove`) that no handler in the program catches. -/
inductive Err
  | invalidAction (a : ActionType) (d : ErrDetail)
  | drawEmpty
  | pyIndexError
  | pyRemoveError
deriving DecidableEq, Repr

/-- Only `InvalidActionErr` is caught at the turn boundary and re-prompted. -/
def Err.isRecoverable : Err → Bool
  | .invalidAction _ _ => true
  | _ => false

/-- `"shdc".find` composed with the `Suit` member list: s, h, d, c. -/
def suitOfChar (c : Char) : Option Suit :=
  if c = 's' then some .Spades
  else if c = 'h' then some .Hearts
  else if c = 'd' then some .Diamonds
  else if c = 'c' then some .Clubs
  else none

def isFaceChar (c : Char) : Bool := c = 'j' || c = 'q' || c = 'k' || c = 'a'

/-- A parsed card specifier: either a face letter (already resolved to its
rank: a→1, j→8, q→9, k→10 via `8 + "JQKA".find`) or a raw 1-2 digit numeral
still to be validated by `intoRank`. -/
inductive Spec
  | face (rank : Nat)
  | numeric (n : Nat)
deriving DecidableEq, Repr

def rankOfFaceChar (c : Char) : Option Nat :=
  if c = 'a' then some 1
  else if c = 'j' then some 8
  else if c = 'q' then some 9
  else if c = 'k' then some 10
  else none

/-- The regex `^(\d\d?|j|q|k|a)(h|s|c|d)$`: exactly one face letter or one or
two digits, followed by one suit letter. -/
def matchSpecifier (s : String) : Option (Spec × Suit) :=
  match s.data with
  | [r, su] =>
    match suitOfChar su with
    | none => none
    | some suit =>
      if r.isDigit then some (.numeric (r.toNat - 48), suit)
      else
        match rankOfFaceChar r with
        | some rank => some (.face rank, suit)
        | none => none
  | [r1, r2, su] =>
    match suitOfChar su with
    | none => none
    | some suit =>
      if r1.isDigit && r2.isDigit then
        some (.numeric ((r1.toNat - 48) * 10 + (r2.toNat - 48)), suit)
      else none
  | _ => none

/-- `GameManager.selectCard`: parse the specifier, validate a numeric rank with
`intoRank`, then look the card up in the discard pile (top, then
second-from-top) and fall back to the tableau.  Returns the card together with
the new value of `isPile2ndSelected` (set when the pile lookup resolved to the
second-from-top card). -/
def selectCard (g : GameManager) (inpt : String) : Except Err (Card × Bool) :=
  match matchSpecifier inpt with
  | none => .error (.invalidAction .cardSelection .couldNotIdentify)
  | some (spec, suit) =>
    match (match spec with | .face r => some r | .numeric n => intoRank n) with
    | none => .error (.invalidAction .cardSelection .rankOutOfRange)
    | some rank =>
      match DiscardPile.select g.pile suit rank with
      | some card =>
        let fl := g.isPile2ndSelected || (decide (1 < g.pile.length) && decide (secondLast g.pile = some card))
        .ok (card, fl)
      | none =>
        match Table.select g.table suit rank with
        | some card => .ok (card, g.isPile2ndSelected)
        | none => .error (.invalidAction .cardSelection (.unavailable suit rank))

/-- Python `str.split()` on the character list: split on whitespace runs,
dropping empty pieces (`acc` holds the current token, reversed). -/
def pySplitAux : List Char → List Char → List String
  | [], acc => if acc = [] then [] else [⟨acc.reverse⟩]
  | c :: rest, acc =>
    if c.isWhitespace then
      if acc = [] then pySplitAux rest [] else ⟨acc.reverse⟩ :: pySplitAux rest []
    else pySplitAux rest (c :: acc)

/-- Python `str.split()`: split on whitespace runs, dropping empty pieces. -/
def pySplit (s : String) : List String := pySplitAux s.data []

/-- Lines 325-326 of the source: remove both cards of a validated pair. -/
def pairCommit (g : GameManager) (first second : Card) : Except (Err × GameManager) GameManager :=
  match removeCard g first with
  | none => .error (.pyRemoveError, g)
  | some g1 =>
    match removeCard g1 second with
    | none => .error (.pyRemoveError, g1)
    | some g2 => .ok g2

/-- `GameManager.pairCards`, translated control-flow point by control-flow
point.  An error result carries the state at the moment the exception is
raised (only `isPile2ndSelected` can have been mutated by then for the
recoverable errors). -/
def pairCards (g0 : GameManager) (inpt : String) : Except (Err × GameManager) GameManager :=
  let userInpts := pySplit inpt
  let g := { g0 with isPile2ndSelected := false }
  match userInpts[0]? with
  | none => .error (.pyIndexError, g)
  | some tok0 =>
    match selectCard g tok0 with
    | .error e => .error (e, g)
    | .ok (first, fl1) =>
      let g1 := { g with isPile2ndSelected := fl1 }
      if first.rank = 10 then
        if g1.isPile2ndSelected then
          .error (.invalidAction .cardSelection .belowTopOfPile, g1)
        else
          match removeCard g1 first with
          | none => .error (.pyRemoveError, g1)
          | some g2 => .ok g2
      else
        let firstIsPile2nd := g1.isPile2ndSelected
        if userInpts.length < 2 then
          .error (.invalidAction .pairing .onlyKingsSingle, g1)
        else if 2 < userInpts.length then
          .error (.invalidAction .pairing .moreThanTwoSelected, g1)
        else
          match userInpts[1]? with
          | none => .error (.pyIndexError, g1)
          | some tok1 =>
            match selectCard g1 tok1 with
            | .error e => .error (e, g1)
            | .ok (second, fl2) =>
              let g2 := { g1 with isPile2ndSelected := fl2 }
              if !(first.canPair second) then
                .error (.invalidAction .pairing (.badRankSum (first.rank + second.rank)), g2)
              else if first = second then
                .error (.invalidAction .pairing .pairWithSelf, g2)
              else if firstIsPile2nd then
                match g2.pile.getLast? with
                | none => .error (.pyIndexError, g2)
                | some top =>
                  if second ≠ top then .error (.invalidAction .cardSelection .belowTopOfPile, g2)
                  else pairCommit g2 first second
              else if g2.isPile2ndSelected then
                match g2.pile.getLast? with
                | none => .error (.pyIndexError, g2)
                | some top =>
                  if first ≠ top then .error (.invalidAction .cardSelection .belowTopOfPile, g2)
                  else pairCommit g2 first second
              else pairCommit g2 first second

/-- One completed player action, as dispatched by `GameManager.update`: a
successful draw, or a pairing attempt that either succeeds or is rejected with
one of the recoverable `InvalidActionErr`s (which `update` catches and
reports, leaving the game running). -/
inductive Step : GameManager → GameManager → Prop
  | draw (g g' : GameManager) : drawAndDiscard g = some g' → Step g g'
  | pairOk (g : GameManager) (s : String) (g' : GameManager) :
      pairCards g s = .ok g' → Step g g'
  | pairErr (g : GameManager) (s : String) (e : Err) (g' : GameManager) :
      pairCards g s = .error (e, g') → e.isRecoverable = true → Step g g'

/-- Game states reachable from a fresh game (any shuffle of the 40 cards)
through completed actions. -/
inductive Reachable : GameManager → Prop
  | init (deck : List Card) : deck.Perm fullDeck → Reachable (GameManager.init deck)
  | step (g g' : GameManager) : Reachable g → Step g g' → Reachable g'

/-! ## The tableau invariant

Positions in the dict are fixed for the whole game (removal writes `none`
without deleting the key), so the coverage graph can be described statically
over the 27 construction positions: a slot `q` in triangle rows 0..4 is
covered by the two slots `q + rowOf q + 1` and `q + rowOf q + 2` of the next
row; a slot of the bottom triangle row (15..20) is covered by its single
special-row counterpart `q + 6`; the special row (21..26) has no coverers. -/

def coverers (q : Nat) : List Nat :=
  if 21 ≤ q then []
  else if 15 ≤ q then [q + 6]
  else [q + rowOf q + 1, q + rowOf q + 2]

/-- A dict entry is well-keyed: a stored card sits under its own identity. -/
def entryWellKeyed (kv : TKey × Option Card) : Bool :=
  match kv.2 with
  | some c => decide (kv.1 = cId c)
  | none => true

def absentAt (vals : List (Option Card)) (j : Nat) : Bool := decide (vals[j]? = some none)

/-- Coverage discipline at one slot: a slot that is gone or exposed has all of
its coverers gone (equivalently: while any coverer is present, the slot is
present and covered). -/
def covOkAt (vals : List (Option Card)) (q : Nat) : Bool :=
  match vals[q]? with
  | some none => (coverers q).all fun j => absentAt vals j
  | some (some c) => c.isCovered || (coverers q).all fun j => absentAt vals j
  | none => true

/-- The tableau invariant, maintained by every reachable game state:
27 fixed slots, well-keyed distinct keys, the bookkeeping relation between
`nRows`, `nCards` and `lastRowExists`, emptiness of all slots past the active
window, and the coverage discipline. -/
def tableInvB (t : Table) : Bool :=
  decide (t.cards.length = 27)
  && t.cards.all entryWellKeyed
  && decide ((dictKeys t.cards).Nodup)
  && (if t.lastRowExists then decide (t.nRows = 6 ∧ t.nCards = 27)
      else decide (t.nRows ≤ 6 ∧ t.nCards = comb t.nRows))
  && ((List.range 27).all fun i => decide (i < t.nCards) || absentAt (dictValues t.cards) i)
  && ((List.range 27).all fun q => covOkAt (dictValues t.cards) q)

def TableInv (t : Table) : Prop := tableInvB t = true

instance (t : Table) : Decidable (TableInv t) := instDecidableEqBool (tableInvB t) true

/-! ### Basic dict lemmas -/

theorem dictValues_length (d : TDict) : (dictValues d).length = d.length := by
  simp [dictValues]

theorem dictKeys_length (d : TDict) : (dictKeys d).length = d.length := by
  simp [dictKeys]

theorem dictValues_getElem? (d : TDict) (i : Nat) :
    (dictValues d)[i]? = d[i]?.map (·.2) := by
  simp [dictValues]

theorem dictKeys_getElem? (d : TDict) (i : Nat) :
    (dictKeys d)[i]? = d[i]?.map (·.1) := by
  simp [dictKeys]

theorem setValAt_of_getElem? {d : TDict} {i : Nat} {kv : TKey × Option Card}
    (h : d[i]? = some kv) (v : Option Card) : setValAt d i v = d.set i (kv.1, v) := by
  simp [setValAt, h]

theorem dictValues_setValAt (d : TDict) (i : Nat) (v : Option Card) :
    dictValues (setValAt d i v) = (dictValues d).set i v := by
  unfold setValAt
  match h : d[i]? with
  | some kv =>
    simp only [h, dictValues, List.map_set]
  | none =>
    have hlen : d.length ≤ i := by
      by_contra hc
      rcases List.getElem?_eq_some_iff.mpr ⟨Nat.lt_of_not_le hc, rfl⟩ with h2
      simp [h] at h2
    simp only [h, dictValues]
    rw [List.set_eq_of_length_le (by simpa using hlen)]

theorem dictKeys_setValAt (d : TDict) (i : Nat) (v : Option Card) :
    dictKeys (setValAt d i v) = dictKeys d := by
  unfold setValAt
  match h : d[i]? with
  | some kv =>
    simp only [h, dictKeys, List.map_set]
    apply List.ext_getElem?
    intro n
    rw [List.getElem?_set]
    split
    · next he =>
      subst he
      rcases List.getElem?_eq_some_iff.mp h with ⟨hi, hkv⟩
      simp only [List.length_map, hi, if_pos, List.getElem?_map, h, Option.map_some']
    · rfl
  | none => simp [h]

theorem setValAt_length (d : TDict) (i : Nat) (v : Option Card) :
    (setValAt d i v).length = d.length := by
  unfold setValAt
  match h : d[i]? with
  | some kv => simp [h]
  | none => simp [h]

/-- Writing at a key that sits (uniquely) at position `p` is a positional set. -/
theorem dictSet_eq_set_of_key_at {d : TDict} {p : Nat} {k : TKey} {w : Option Card}
    (hnd : (dictKeys d).Nodup) (h : d[p]? = some (k, w)) (v : Option Card) :
    dictSet d k v = d.set p (k, v) := by
  induction d generalizing p with
  | nil => simp at h
  | cons kv rest ih =>
    match p with
    | 0 =>
      simp only [List.getElem?_cons_zero, Option.some.injEq] at h
      subst h
      simp [dictSet]
    | q + 1 =>
      simp only [List.getElem?_cons_succ] at h
      have hnd' := List.nodup_cons.mp (show (kv.1 :: dictKeys rest).Nodup from hnd)
      have hk : kv.1 ≠ k := by
        intro he
        have hmem2 : (k, w) ∈ rest := (List.mem_iff_getElem? (l := rest)).mpr ⟨q, h⟩
        have hmem : k ∈ dictKeys rest := by
          simpa [dictKeys] using List.mem_map_of_mem (·.1) hmem2
        exact hnd'.1 (he ▸ hmem)
      simp [dictSet, hk, ih hnd'.2 h]

/-- Looking up a key that sits (uniquely) at position `p`. -/
theorem dictGet_eq_of_key_at {d : TDict} {p : Nat} {k : TKey} {w : Option Card}
    (hnd : (dictKeys d).Nodup) (h : d[p]? = some (k, w)) :
    dictGet d k = some w := by
  induction d generalizing p with
  | nil => simp at h
  | cons kv rest ih =>
    match p with
    | 0 =>
      simp only [List.getElem?_cons_zero, Option.some.injEq] at h
      subst h
      simp [dictGet, List.find?_cons]
    | q + 1 =>
      simp only [List.getElem?_cons_succ] at h
      have hnd' := List.nodup_cons.mp (show (kv.1 :: dictKeys rest).Nodup from hnd)
      have hk : kv.1 ≠ k := by
        intro he
        have hmem2 : (k, w) ∈ rest := (List.mem_iff_getElem? (l := rest)).mpr ⟨q, h⟩
        have hmem : k ∈ dictKeys rest := by
          simpa [dictKeys] using List.mem_map_of_mem (·.1) hmem2
        exact hnd'.1 (he ▸ hmem)
      simp only [dictGet, List.find?_cons, decide_eq_true_eq, hk, if_neg hk]
      simpa [dictGet] using ih hnd'.2 h

/-- A successful lookup exposes a position holding the key and value. -/
theorem dictGet_some_pos {d : TDict} {k : TKey} {w : Option Card}
    (h : dictGet d k = some w) : ∃ p : Nat, d[p]? = some (k, w) := by
  unfold dictGet at h
  match hf : d.find? fun kv => decide (kv.1 = k) with
  | none => simp [hf] at h
  | some kv =>
    simp only [hf, Option.map_some', Option.some.injEq] at h
    have hp : kv.1 = k := of_decide_eq_true (List.find?_some (p := fun kv : TKey × Option Card => decide (kv.1 = k)) hf)
    have hmem : kv ∈ d := List.mem_of_find?_eq_some hf
    rcases List.getElem?_of_mem hmem with ⟨p, hp2⟩
    refine ⟨p, ?_⟩
    rw [hp2]
    cases kv
    simp_all

/-! ### Unfolding the invariant -/

theorem tableInv_iff (t : Table) : TableInv t ↔
    (t.cards.length = 27 ∧
     (∀ kv ∈ t.cards, entryWellKeyed kv = true) ∧
     (dictKeys t.cards).Nodup ∧
     (if t.lastRowExists = true then t.nRows = 6 ∧ t.nCards = 27
      else t.nRows ≤ 6 ∧ t.nCards = comb t.nRows) ∧
     (∀ i, i < 27 → t.nCards ≤ i → (dictValues t.cards)[i]? = some none) ∧
     (∀ q, q < 27 → covOkAt (dictValues t.cards) q = true)) := by
  unfold TableInv tableInvB absentAt
  cases hl : t.lastRowExists <;>
    simp [List.all_eq_true, List.mem_range, or_iff_not_imp_left, Nat.not_lt] <;>
    tauto

theorem wk_pos {d : TDict} (h : ∀ kv ∈ d, entryWellKeyed kv = true) {i : Nat} {k : TKey}
    {c : Card} (hkv : d[i]? = some (k, some c)) : k = cId c := by
  have hm := h _ ((List.mem_iff_getElem? (l := d)).mpr ⟨i, hkv⟩)
  simpa [entryWellKeyed] using hm

theorem wk_of_pos {d : TDict}
    (h : ∀ i : Nat, ∀ k : TKey, ∀ c : Card, d[i]? = some (k, some c) → k = cId c) :
    ∀ kv ∈ d, entryWellKeyed kv = true := by
  intro kv hkv
  rcases List.getElem?_of_mem hkv with ⟨i, hi⟩
  match hkv2 : kv.2 with
  | none => simp [entryWellKeyed, hkv2]
  | some c =>
    have : kv.1 = cId c := by
      apply h i kv.1 c
      rw [hi]
      cases kv
      simp_all
    simp [entryWellKeyed, hkv2, this]

/-- A slot value at a position comes with its key. -/
theorem exists_pair_of_value {d : TDict} {i : Nat} {w : Option Card}
    (hv : (dictValues d)[i]? = some w) :
    ∃ k : TKey, d[i]? = some (k, w) ∧ (dictKeys d)[i]? = some k := by
  rw [dictValues_getElem?] at hv
  match hd : d[i]? with
  | none => simp [hd] at hv
  | some kv =>
    rw [hd] at hv
    simp only [Option.map_some', Option.some.injEq] at hv
    obtain ⟨k1, v1⟩ := kv
    cases hv
    refine ⟨k1, by simp [hd], ?_⟩
    rw [dictKeys_getElem?, hd]
    rfl

/-- The coverage discipline, read off at an exposed or empty slot. -/
theorem covOk_gone {vals : List (Option Card)} {q : Nat}
    (h : covOkAt vals q = true)
    (hq : vals[q]? = some none ∨ ∃ c, vals[q]? = some (some c) ∧ c.isCovered = false) :
    ∀ j ∈ coverers q, vals[j]? = some none := by
  intro j hj
  unfold covOkAt at h
  rcases hq with hq | ⟨c, hq, hc⟩ <;>
    rw [hq] at h <;>
    simp_all [List.all_eq_true, absentAt]

/-- Contrapositive: while a coverer is present, the covered slot is present
and still covered. -/
theorem covOk_present {vals : List (Option Card)} {q j : Nat} {c : Card}
    (h : covOkAt vals q = true) (hlen : vals.length = 27)
    (hj : j ∈ coverers q) (hc : vals[j]? = some (some c)) :
    ∃ cd : Card, vals[q]? = some (some cd) ∧ cd.isCovered = true := by
  have hq27 : q < 21 := by
    by_contra hge
    simp [coverers, Nat.le_of_not_lt hge] at hj
  match hv : vals[q]? with
  | none =>
    have : q < vals.length := by omega
    rcases List.getElem?_eq_some_iff.mpr ⟨this, rfl⟩ with h2
    simp [hv] at h2
  | some none =>
    have := covOk_gone h (Or.inl hv) j hj
    simp [this] at hc
  | some (some cd) =>
    refine ⟨cd, rfl, ?_⟩
    by_contra hcov
    have := covOk_gone h (Or.inr ⟨cd, hv, by simpa using hcov⟩) j hj
    simp [this] at hc

/-! ### Geometry of the 27 positions, settled by computation -/

theorem rowGeom : ∀ p, p < 27 → (21 ≤ p ↔ rowOf p = 6) := by decide

theorem generalGeom : ∀ p, p < 21 →
    (p - comb (rowOf p) ≠ 0 → coverers (p - rowOf p - 1) = [p - 1, p] ∧ 1 ≤ p) ∧
    (p - comb (rowOf p) < rowOf p → coverers (p - rowOf p) = [p, p + 1] ∧ p + 1 < 21) ∧
    p - comb (rowOf p) ≤ rowOf p ∧ rowOf p ≤ 5 ∧ comb (rowOf p) ≤ p ∧
    rowOf p ≤ comb (rowOf p) := by decide

theorem specialGeom : ∀ p, 21 ≤ p → p < 27 →
    rowOf p = 6 ∧ coverers (p - 6) = [p] ∧ 15 ≤ p - 6 ∧ p - 6 < 21 := by decide

theorem pyIdxGeom : ∀ p : Nat, p < 27 →
    (pyIdx 27 ((p : Int) - (rowOf p : Int) - 1)).isSome = true ∧
    pyIdx 27 ((p : Int) - (rowOf p : Int)) = some (p - rowOf p) ∧
    (p - comb (rowOf p) ≠ 0 →
      pyIdx 27 ((p : Int) - (rowOf p : Int) - 1) = some (p - rowOf p - 1)) := by decide

theorem coverersGeom : ∀ q, q < 27 → ∀ j ∈ coverers q, j < 27 ∧ q < j := by decide

theorem combGeom : ∀ n, n < 7 → comb n ≤ 21 ∧ (1 ≤ n → comb n - n = comb (n - 1)) := by decide

/-! ### Point lemmas about the value-list updates -/

/-- The expected value list after the uncover write at slot `i`. -/
def uncovVals (vals : List (Option Card)) (i : Nat) : List (Option Card) :=
  match vals[i]? with
  | some (some c) => vals.set i (some { c with isCovered := false })
  | _ => vals

theorem uncovVals_length (vals : List (Option Card)) (i : Nat) :
    (uncovVals vals i).length = vals.length := by
  unfold uncovVals
  match h : vals[i]? with
  | some (some c) => simp [h]
  | some none => simp [h]
  | none => simp [h]

theorem uncovVals_getElem_ne {vals : List (Option Card)} {i j : Nat} (h : j ≠ i) :
    (uncovVals vals i)[j]? = vals[j]? := by
  unfold uncovVals
  match hv : vals[i]? with
  | some (some c) => simp [hv, List.getElem?_set_ne (Ne.symm h)]
  | some none => simp [hv]
  | none => simp [hv]

theorem uncovVals_self {vals : List (Option Card)} {i : Nat} {c : Card}
    (h : vals[i]? = some (some c)) :
    (uncovVals vals i)[i]? = some (some { c with isCovered := false }) := by
  unfold uncovVals
  rcases List.getElem?_eq_some_iff.mp h with ⟨hi, _⟩
  simp [h, List.getElem?_set_self hi]

theorem uncovVals_none_iff (vals : List (Option Card)) (i j : Nat) :
    ((uncovVals vals i)[j]? = some none) ↔ vals[j]? = some none := by
  by_cases hij : j = i
  · subst hij
    unfold uncovVals
    match hv : vals[j]? with
    | some (some c) =>
      rcases List.getElem?_eq_some_iff.mp hv with ⟨hlen, _⟩
      simp [hv, List.getElem?_set_self hlen]
    | some none => simp [hv]
    | none => simp [hv]
  · rw [uncovVals_getElem_ne hij]

/-- An uncover write leaves an already-exposed slot entirely unchanged. -/
theorem uncovVals_exposed {vals : List (Option Card)} {i j : Nat} {d : Card}
    (hj : vals[j]? = some (some d)) (hd : d.isCovered = false) :
    (uncovVals vals i)[j]? = some (some d) := by
  by_cases hij : j = i
  · subst hij
    have := uncovVals_self hj
    rw [this]
    have : { d with isCovered := false } = d := by
      cases d; simp_all
    rw [this]
  · rw [uncovVals_getElem_ne hij, hj]

theorem uncoverAt_some {d : TDict} {i : Nat} {c : Card}
    (h : (dictValues d)[i]? = some (some c)) :
    uncoverAt d i = some (setValAt d i (some { c with isCovered := false })) := by
  unfold uncoverAt
  rw [h]

theorem uncoverAt_values {d : TDict} {i : Nat} {d' : TDict}
    (h : uncoverAt d i = some d') :
    dictValues d' = uncovVals (dictValues d) i ∧ dictKeys d' = dictKeys d := by
  unfold uncoverAt at h
  match hv : (dictValues d)[i]? with
  | some (some c) =>
    rw [hv] at h
    cases h
    constructor
    · rw [dictValues_setValAt]
      unfold uncovVals
      rw [hv]
    · exact dictKeys_setValAt ..
  | some none => rw [hv] at h; cases h
  | none => rw [hv] at h; cases h

theorem set_self_getElem? {α : Type} {l : List α} {i : Nat} {a : α}
    (h : l[i]? = some a) : l.set i a = l := by
  apply List.ext_getElem?
  intro n
  rw [List.getElem?_set]
  split
  · next he =>
    subst he
    rcases List.getElem?_eq_some_iff.mp h with ⟨hi, _⟩
    simp [hi, h]
  · rfl

/-- The expected post-removal value list: the uncover writes of `Table.remove`
followed by blanking the removed slot. -/
def postUncoverVals (vals : List (Option Card)) (lre : Bool) (nRows p : Nat) :
    List (Option Card) :=
  let y := rowOf p
  let x := p - comb y
  if lre && (y == nRows) then uncovVals vals (p - y)
  else
    let v1 := if x ≠ 0 ∧ vals[p - 1]? = some none then uncovVals vals (p - y - 1) else vals
    if x < y ∧ vals[p + 1]? = some none then uncovVals v1 (p - y) else v1

/-- The row-exhaustion check of `Table.remove`
(`not list(filter(None, cards[nCards - nRows : nCards]))`). -/
def windowClear (va : List (Option Card)) (nCards nRows : Nat) : Bool :=
  (((va.drop (nCards - nRows)).take (nCards - (nCards - nRows))).filter fun o => o.isSome).isEmpty

theorem windowClear_iff {va : List (Option Card)} {nC nR : Nat} (hlen : nC ≤ va.length) :
    windowClear va nC nR = true ↔ ∀ i : Nat, nC - nR ≤ i → i < nC → va[i]? = some none := by
  unfold windowClear
  rw [List.isEmpty_iff, List.filter_eq_nil_iff]
  constructor
  · intro h i h1 h2
    have hj : i - (nC - nR) < nC - (nC - nR) := by omega
    have hwin : ((va.drop (nC - nR)).take (nC - (nC - nR)))[i - (nC - nR)]? =
        va[i]? := by
      rw [List.getElem?_take_of_lt hj, List.getElem?_drop]
      congr 1
      omega
    have hlt : i < va.length := by omega
    match hv : va[i]? with
    | none =>
      rcases List.getElem?_eq_some_iff.mpr ⟨hlt, rfl⟩ with h3
      simp [hv] at h3
    | some o =>
      have hmem : o ∈ (va.drop (nC - nR)).take (nC - (nC - nR)) := by
        apply (List.mem_iff_getElem? (l := (va.drop (nC - nR)).take (nC - (nC - nR)))).mpr
        exact ⟨i - (nC - nR), by rw [hwin, hv]⟩
      have := h o hmem
      match o with
      | none => rfl
      | some cd => simp at this
  · intro h o hmem
    rcases List.getElem?_of_mem hmem with ⟨j, hj⟩
    have hjlt : j < nC - (nC - nR) := by
      have := (List.getElem?_eq_some_iff.mp hj).1
      have h2 : ((va.drop (nC - nR)).take (nC - (nC - nR))).length ≤ nC - (nC - nR) := by
        simp [List.length_take]
      omega
    have hwin : va[(nC - nR) + j]? = some o := by
      rw [← List.getElem?_drop, ← List.getElem?_take_of_lt hjlt]
      exact hj
    have := h ((nC - nR) + j) (by omega) (by omega)
    rw [hwin] at this
    cases this
    simp

/-- Coverage-discipline transfer: the invariant survives a removal whose
post-state presence and flag changes are as described. -/
theorem covOk_transfer {vals va : List (Option Card)} {p : Nat} {c : Card}
    (hvlen : vals.length = 27) (hvalen : va.length = 27)
    (hpres : ∀ j : Nat, va[j]? = some none ↔ (vals[j]? = some none ∨ j = p))
    (hflags : ∀ j : Nat, j ≠ p → ∀ d : Card, va[j]? = some (some d) →
      (vals[j]? = some (some d) ∨
        (d.isCovered = false ∧ ∀ i ∈ coverers j, va[i]? = some none)))
    (hp : vals[p]? = some (some c))
    (hpcov : ∀ j ∈ coverers p, vals[j]? = some none)
    (hcov : ∀ q : Nat, q < 27 → covOkAt vals q = true) :
    ∀ q : Nat, q < 27 → covOkAt va q = true := by
  intro q hq
  by_cases hqp : q = p
  · subst hqp
    have hvaq : va[q]? = some none := (hpres q).mpr (Or.inr rfl)
    unfold covOkAt
    rw [hvaq]
    simp only [List.all_eq_true, absentAt, decide_eq_true_eq]
    intro j hj
    exact (hpres j).mpr (Or.inl (hpcov j hj))
  · match hvaq : va[q]? with
    | none =>
      have : q < va.length := by omega
      rcases List.getElem?_eq_some_iff.mpr ⟨this, rfl⟩ with h3
      simp [hvaq] at h3
    | some none =>
      have hvq : vals[q]? = some none := by
        rcases (hpres q).mp hvaq with h | h
        · exact h
        · exact absurd h hqp
      unfold covOkAt
      rw [hvaq]
      simp only [List.all_eq_true, absentAt, decide_eq_true_eq]
      intro j hj
      have hjabs := covOk_gone (hcov q hq) (Or.inl hvq) j hj
      exact (hpres j).mpr (Or.inl hjabs)
    | some (some d) =>
      unfold covOkAt
      rw [hvaq]
      match hdc : d.isCovered with
      | true => simp [hdc]
      | false =>
        simp only [hdc, Bool.false_or, List.all_eq_true, absentAt, decide_eq_true_eq]
        intro j hj
        rcases hflags q hqp d hvaq with hold | ⟨_, hjust⟩
        · have hjabs := covOk_gone (hcov q hq) (Or.inr ⟨d, hold, hdc⟩) j hj
          exact (hpres j).mpr (Or.inl hjabs)
        · exact hjust j hj

theorem postUncoverVals_length (vals : List (Option Card)) (lre : Bool) (nR p : Nat) :
    (postUncoverVals vals lre nR p).length = vals.length := by
  simp only [postUncoverVals]
  split
  · rw [uncovVals_length]
  · split <;> split <;> simp [uncovVals_length]

theorem postUncoverVals_none_iff (vals : List (Option Card)) (lre : Bool) (nR p j : Nat) :
    (postUncoverVals vals lre nR p)[j]? = some none ↔ vals[j]? = some none := by
  simp only [postUncoverVals]
  split
  · rw [uncovVals_none_iff]
  · split <;> split <;> simp [uncovVals_none_iff]

theorem uncovVals_skip {vals : List (Option Card)} {i : Nat}
    (h : ∀ c : Card, vals[i]? ≠ some (some c)) : uncovVals vals i = vals := by
  unfold uncovVals
  split
  · next c heq => exact absurd heq (h c)
  · rfl

theorem uncovVals_id {vals : List (Option Card)} {i j : Nat} {d : Card}
    (h : (uncovVals vals i)[j]? = some (some d)) :
    ∃ d0 : Card, vals[j]? = some (some d0) ∧ cId d = cId d0 := by
  by_cases hij : j = i
  · subst hij
    match hv : vals[j]? with
    | some (some c) =>
      rw [uncovVals_self hv] at h
      simp only [Option.some.injEq] at h
      subst h
      exact ⟨c, rfl, rfl⟩
    | some none =>
      rw [uncovVals_skip (by intro c hc; rw [hv] at hc; simp at hc)] at h
      rw [hv] at h
      simp at h
    | none =>
      rw [uncovVals_skip (by intro c hc; rw [hv] at hc; simp at hc)] at h
      rw [hv] at h
      simp at h
  · rw [uncovVals_getElem_ne hij] at h
    exact ⟨d, h, rfl⟩

theorem postUncoverVals_id {vals : List (Option Card)} {lre : Bool} {nR p j : Nat} {d : Card}
    (h : (postUncoverVals vals lre nR p)[j]? = some (some d)) :
    ∃ d0 : Card, vals[j]? = some (some d0) ∧ cId d = cId d0 := by
  simp only [postUncoverVals] at h
  split at h
  · exact uncovVals_id h
  · split at h
    · rcases uncovVals_id h with ⟨d1, h1, hi1⟩
      split at h1
      · rcases uncovVals_id h1 with ⟨d0, h0, hi0⟩
        exact ⟨d0, h0, hi1.trans hi0⟩
      · exact ⟨d1, h1, hi1⟩
    · split at h
      · rcases uncovVals_id h with ⟨d0, h0, hi0⟩
        exact ⟨d0, h0, hi0⟩
      · exact ⟨d, h, rfl⟩

theorem postUncoverVals_at_p {vals : List (Option Card)} {lre : Bool} {nR p : Nat} {c : Card}
    (hp : vals[p]? = some (some c))
    (hy0 : (lre && (rowOf p == nR)) = true → rowOf p ≠ 0) :
    (postUncoverVals vals lre nR p)[p]? = some (some c) := by
  have hrow0 : rowOf 0 = 0 := by decide
  simp only [postUncoverVals]
  split
  · next hbr =>
    have hy := hy0 hbr
    rw [uncovVals_getElem_ne]
    · exact hp
    · intro he
      rcases Nat.eq_zero_or_pos p with h0 | hpos
      · rw [h0] at hy; exact hy hrow0
      · omega
  · split
    · next hR =>
      obtain ⟨hxy, _⟩ := hR
      have hpne : p ≠ p - rowOf p := by
        rcases Nat.eq_zero_or_pos p with h0 | hpos
        · subst h0; rw [hrow0] at hxy; omega
        · omega
      rw [uncovVals_getElem_ne hpne]
      split
      · next hL =>
        obtain ⟨hx, _⟩ := hL
        have hp1 : 1 ≤ p := by
          rcases Nat.eq_zero_or_pos p with h0 | hpos
          · exfalso; apply hx; rw [h0]; simp
          · exact hpos
        rw [uncovVals_getElem_ne (by omega)]
        exact hp
      · exact hp
    · split
      · next hL =>
        obtain ⟨hx, _⟩ := hL
        have hp1 : 1 ≤ p := by
          rcases Nat.eq_zero_or_pos p with h0 | hpos
          · exfalso; apply hx; rw [h0]; simp
          · exact hpos
        rw [uncovVals_getElem_ne (by omega)]
        exact hp
      · exact hp

/-- Flag-change justification after a removal at `p`: every slot of the
post-state either kept its old card, or was uncovered legitimately (all of
its coverers are absent in the post-state). -/
theorem postUncoverVals_flags {vals : List (Option Card)} {p : Nat} {c : Card}
    (lre : Bool) (nR : Nat)
    (hvlen : vals.length = 27) (hplt : p < 27)
    (hp : vals[p]? = some (some c))
    (hsp : (lre && (rowOf p == nR)) = true → 21 ≤ p)
    (hgen : ¬ (lre && (rowOf p == nR)) = true → p < 21) :
    ∀ j : Nat, j ≠ p → ∀ d : Card,
      ((postUncoverVals vals lre nR p).set p none)[j]? = some (some d) →
      (vals[j]? = some (some d) ∨
        (d.isCovered = false ∧
          ∀ i ∈ coverers j, ((postUncoverVals vals lre nR p).set p none)[i]? = some none)) := by
  intro j hjp d hd
  have hva_j : (postUncoverVals vals lre nR p)[j]? = some (some d) := by
    rw [List.getElem?_set_ne (Ne.symm hjp)] at hd
    exact hd
  have hnone : ∀ i : Nat, vals[i]? = some none ∨ i = p →
      ((postUncoverVals vals lre nR p).set p none)[i]? = some none := by
    intro i hi
    rcases hi with hi | hi
    · have hip : i ≠ p := by
        intro he
        rw [he, hp] at hi
        simp at hi
      rw [List.getElem?_set_ne (Ne.symm hip), postUncoverVals_none_iff]
      exact hi
    · subst hi
      apply List.getElem?_set_self
      rw [postUncoverVals_length]
      omega
  by_cases hbr : (lre && (rowOf p == nR)) = true
  · -- special last-row branch
    have h21 := hsp hbr
    obtain ⟨hrow6, hcovS, hge15, hlt21S⟩ := specialGeom p h21 hplt
    have hpost : postUncoverVals vals lre nR p = uncovVals vals (p - rowOf p) := by
      simp only [postUncoverVals]
      rw [if_pos hbr]
    rw [hpost] at hva_j
    by_cases hjt : j = p - rowOf p
    · subst hjt
      match hvt : vals[p - rowOf p]? with
      | some (some cd) =>
        rw [uncovVals_self hvt] at hva_j
        simp only [Option.some.injEq] at hva_j
        subst hva_j
        right
        refine ⟨rfl, ?_⟩
        intro i hi
        rw [hrow6, hcovS] at hi
        simp at hi
        rw [hi]
        exact hnone p (Or.inr rfl)
      | some none =>
        rw [uncovVals_skip (by intro cx hcx; rw [hvt] at hcx; simp at hcx), hvt] at hva_j
        simp at hva_j
      | none =>
        rw [uncovVals_skip (by intro cx hcx; rw [hvt] at hcx; simp at hcx), hvt] at hva_j
        simp at hva_j
    · rw [uncovVals_getElem_ne hjt] at hva_j
      exact Or.inl hva_j
  · -- general branch
    have hlt21 := hgen hbr
    obtain ⟨hgL, hgR, hxley, hyle5, hcomble, hylecomb⟩ := generalGeom p hlt21
    have hpost : postUncoverVals vals lre nR p =
        (if p - comb (rowOf p) < rowOf p ∧ vals[p + 1]? = some none then
          uncovVals
            (if p - comb (rowOf p) ≠ 0 ∧ vals[p - 1]? = some none then
              uncovVals vals (p - rowOf p - 1)
            else vals) (p - rowOf p)
        else
          (if p - comb (rowOf p) ≠ 0 ∧ vals[p - 1]? = some none then
            uncovVals vals (p - rowOf p - 1)
          else vals)) := by
      simp only [postUncoverVals]
      rw [if_neg hbr]
    rw [hpost] at hva_j
    by_cases hR : p - comb (rowOf p) < rowOf p ∧ vals[p + 1]? = some none
    · rw [if_pos hR] at hva_j
      obtain ⟨hcovR, hp1lt⟩ := hgR hR.1
      by_cases hjt2 : j = p - rowOf p
      · subst hjt2
        -- the inner list has the original value at the right target
        have hinner : (if p - comb (rowOf p) ≠ 0 ∧ vals[p - 1]? = some none then
              uncovVals vals (p - rowOf p - 1)
            else vals)[p - rowOf p]? = vals[p - rowOf p]? := by
          split
          · next hL =>
            rw [uncovVals_getElem_ne]
            obtain ⟨hx0, _⟩ := hL
            omega
          · rfl
        match hvt : vals[p - rowOf p]? with
        | some (some cd) =>
          rw [uncovVals_self (hinner.trans hvt)] at hva_j
          simp only [Option.some.injEq] at hva_j
          subst hva_j
          right
          refine ⟨rfl, ?_⟩
          intro i hi
          rw [hcovR] at hi
          simp at hi
          rcases hi with hi | hi
          · rw [hi]
            exact hnone p (Or.inr rfl)
          · rw [hi]
            exact hnone (p + 1) (Or.inl hR.2)
        | some none =>
          rw [uncovVals_skip (by intro cx hcx; rw [hinner.trans hvt] at hcx; simp at hcx),
            hinner.trans hvt] at hva_j
          simp at hva_j
        | none =>
          rw [uncovVals_skip (by intro cx hcx; rw [hinner.trans hvt] at hcx; simp at hcx),
            hinner.trans hvt] at hva_j
          simp at hva_j
      · rw [uncovVals_getElem_ne hjt2] at hva_j
        split at hva_j
        · next hL =>
          obtain ⟨hcovL, hpge1⟩ := hgL hL.1
          by_cases hjt1 : j = p - rowOf p - 1
          · subst hjt1
            match hvt : vals[p - rowOf p - 1]? with
            | some (some cd) =>
              rw [uncovVals_self hvt] at hva_j
              simp only [Option.some.injEq] at hva_j
              subst hva_j
              right
              refine ⟨rfl, ?_⟩
              intro i hi
              rw [hcovL] at hi
              simp at hi
              rcases hi with hi | hi
              · rw [hi]
                exact hnone (p - 1) (Or.inl hL.2)
              · rw [hi]
                exact hnone p (Or.inr rfl)
            | some none =>
              rw [uncovVals_skip (by intro cx hcx; rw [hvt] at hcx; simp at hcx), hvt] at hva_j
              simp at hva_j
            | none =>
              rw [uncovVals_skip (by intro cx hcx; rw [hvt] at hcx; simp at hcx), hvt] at hva_j
              simp at hva_j
          · rw [uncovVals_getElem_ne hjt1] at hva_j
            exact Or.inl hva_j
        · exact Or.inl hva_j
    · rw [if_neg hR] at hva_j
      split at hva_j
      · next hL =>
        obtain ⟨hcovL, hpge1⟩ := hgL hL.1
        by_cases hjt1 : j = p - rowOf p - 1
        · subst hjt1
          match hvt : vals[p - rowOf p - 1]? with
          | some (some cd) =>
            rw [uncovVals_self hvt] at hva_j
            simp only [Option.some.injEq] at hva_j
            subst hva_j
            right
            refine ⟨rfl, ?_⟩
            intro i hi
            rw [hcovL] at hi
            simp at hi
            rcases hi with hi | hi
            · rw [hi]
              exact hnone (p - 1) (Or.inl hL.2)
            · rw [hi]
              exact hnone p (Or.inr rfl)
          | some none =>
            rw [uncovVals_skip (by intro cx hcx; rw [hvt] at hcx; simp at hcx), hvt] at hva_j
            simp at hva_j
          | none =>
            rw [uncovVals_skip (by intro cx hcx; rw [hvt] at hcx; simp at hcx), hvt] at hva_j
            simp at hva_j
        · rw [uncovVals_getElem_ne hjt1] at hva_j
          exact Or.inl hva_j
      · exact Or.inl hva_j

/-- Blanking the removed card's dict entry (`self.cards[key] = None`): under
the invariant's key discipline this is the positional write at `p`. -/
theorem blank_step {t : Table} {d1 : TDict} {p : Nat} {c : Card}
    (hnd : (dictKeys t.cards).Nodup)
    (hwk : ∀ kv ∈ t.cards, entryWellKeyed kv = true)
    (hp : (dictValues t.cards)[p]? = some (some c))
    (hkeys1 : dictKeys d1 = dictKeys t.cards)
    (hval1 : (dictValues d1)[p]? = some (some c)) :
    dictValues (dictSet d1 (cId c) none) = (dictValues d1).set p none ∧
    dictKeys (dictSet d1 (cId c) none) = dictKeys d1 := by
  rcases exists_pair_of_value hval1 with ⟨k1, hpair1, hkey1⟩
  rcases exists_pair_of_value hp with ⟨k0, hpair0, hkey0⟩
  have hk0 : k0 = cId c := wk_pos hwk hpair0
  have hk1 : k1 = cId c := by
    rw [hkeys1] at hkey1
    rw [hkey0] at hkey1
    cases hkey1
    exact hk0
  have hset : dictSet d1 (cId c) none = d1.set p (cId c, none) := by
    apply dictSet_eq_set_of_key_at (by rw [hkeys1]; exact hnd)
    rw [hpair1, hk1]
  constructor
  · rw [hset]
    simp [dictValues, List.map_set]
  · rw [hset]
    simp only [dictKeys, List.map_set]
    apply set_self_getElem?
    show (dictKeys d1)[p]? = some (cId c)
    rw [hkey1, hk1]

/-- Resolving the scaffolding of `Table.remove` around the uncover phase. -/
theorem remove_eq_of_step1 {t : Table} {c : Card} {p li ri : Nat} {d1 : TDict}
    (hvlen : (dictValues t.cards).length = 27)
    (hfind : (dictValues t.cards).findIdx (fun o => decide (o = some c)) = p)
    (hplt : p < 27)
    (hli : pyIdx 27 ((p : Int) - (rowOf p : Int) - 1) = some li)
    (hri : pyIdx 27 ((p : Int) - (rowOf p : Int)) = some ri)
    (hstep1 : removeStep1 t (dictValues t.cards) p li ri = some d1) :
    Table.remove t c =
      some
        (if windowClear ((dictValues d1).set p none) t.nCards t.nRows then
          { nRows := if t.lastRowExists then t.nRows else t.nRows - 1
            nCards := t.nCards - t.nRows
            cards := dictSet d1 (cId c) none
            lastRowExists := false }
        else { t with cards := dictSet d1 (cId c) none }) := by
  conv_lhs => simp only [Table.remove]
  rw [hfind, hvlen, if_neg (show ¬ p = 27 from by omega)]
  simp only [hli, hri, hstep1]
  conv_rhs => rw [apply_ite some]
  rfl

/-- Rebuild the invariant for a post-removal table from pointwise facts. -/
theorem tableInv_assemble {t t' : Table}
    (hInv : TableInv t)
    (hkeys : dictKeys t'.cards = dictKeys t.cards)
    (hlen2 : t'.cards.length = 27)
    (hid : ∀ j : Nat, ∀ d : Card, (dictValues t'.cards)[j]? = some (some d) →
      ∃ d0 : Card, (dictValues t.cards)[j]? = some (some d0) ∧ cId d = cId d0)
    (hstr : if t'.lastRowExists = true then t'.nRows = 6 ∧ t'.nCards = 27
            else t'.nRows ≤ 6 ∧ t'.nCards = comb t'.nRows)
    (hout2 : ∀ i : Nat, i < 27 → t'.nCards ≤ i → (dictValues t'.cards)[i]? = some none)
    (hcov2 : ∀ q : Nat, q < 27 → covOkAt (dictValues t'.cards) q = true) :
    TableInv t' := by
  rcases (tableInv_iff t).mp hInv with ⟨hl, hwk, hnd, _, _, _⟩
  apply (tableInv_iff t').mpr
  refine ⟨hlen2, ?_, by rw [hkeys]; exact hnd, hstr, hout2, hcov2⟩
  apply wk_of_pos
  intro i k d hkv
  have hv : (dictValues t'.cards)[i]? = some (some d) := by
    rw [dictValues_getElem?, hkv]
    rfl
  have hk : (dictKeys t'.cards)[i]? = some k := by
    rw [dictKeys_getElem?, hkv]
    rfl
  rcases hid i d hv with ⟨d0, hv0, hid0⟩
  rcases exists_pair_of_value hv0 with ⟨k0, hpair0, hkey0⟩
  have hkk : k = k0 := by
    rw [hkeys, hkey0] at hk
    exact (Option.some.inj hk).symm
  have : k0 = cId d0 := wk_pos hwk hpair0
  rw [hkk, this, ← hid0]

set_option maxHeartbeats 1000000 in
/-- Master characterization of a legitimate removal: removing a present,
exposed card never raises, rewrites the value list exactly as the guarded
uncover writes followed by blanking the removed slot, keeps the key list
intact, shrinks the bookkeeping exactly when the active last row emptied, and
preserves the tableau invariant. -/
theorem remove_spec (t : Table) (c : Card) (p : Nat)
    (hInv : TableInv t)
    (hp : (dictValues t.cards)[p]? = some (some c))
    (hunc : c.isCovered = false) :
    ∃ t' : Table, Table.remove t c = some t' ∧
      dictValues t'.cards =
        (postUncoverVals (dictValues t.cards) t.lastRowExists t.nRows p).set p none ∧
      dictKeys t'.cards = dictKeys t.cards ∧
      t'.nCards = (if windowClear (dictValues t'.cards) t.nCards t.nRows
                   then t.nCards - t.nRows else t.nCards) ∧
      t'.lastRowExists = (if windowClear (dictValues t'.cards) t.nCards t.nRows
                   then false else t.lastRowExists) ∧
      t'.nRows = (if windowClear (dictValues t'.cards) t.nCards t.nRows
                   then (if t.lastRowExists then t.nRows else t.nRows - 1) else t.nRows) ∧
      TableInv t' := by
  rcases (tableInv_iff t).mp hInv with ⟨hlen, hwk, hnd, hstruct, hout, hcov⟩
  have hvlen : (dictValues t.cards).length = 27 := by
    rw [dictValues_length]
    exact hlen
  have hplt : p < 27 := by
    rcases List.getElem?_eq_some_iff.mp hp with ⟨hlt, _⟩
    omega
  have hpin : p < t.nCards := by
    by_contra hge
    have h2 := hout p hplt (by omega)
    rw [hp] at h2
    simp at h2
  have hnc27 : t.nCards ≤ 27 := by
    match hlre : t.lastRowExists with
    | true =>
      have hstr : t.nRows = 6 ∧ t.nCards = 27 := by simpa [hlre] using hstruct
      omega
    | false =>
      have hstr : t.nRows ≤ 6 ∧ t.nCards = comb t.nRows := by simpa [hlre] using hstruct
      have := (combGeom t.nRows (by omega)).1
      omega
  have hfind : (dictValues t.cards).findIdx (fun o => decide (o = some c)) = p := by
    apply (List.findIdx_eq (by omega)).mpr
    constructor
    · rcases List.getElem?_eq_some_iff.mp hp with ⟨hlt, hval⟩
      simp [hval]
    · intro j hji
      apply decide_eq_false
      intro heq
      have hvj : (dictValues t.cards)[j]? = some (some c) := by
        rw [List.getElem?_eq_some_iff]
        exact ⟨by omega, heq⟩
      rcases exists_pair_of_value hvj with ⟨kj, hkvj, hkeyj⟩
      rcases exists_pair_of_value hp with ⟨kp, hkvp, hkeyp⟩
      have e1 : kj = cId c := wk_pos hwk hkvj
      have e2 : kp = cId c := wk_pos hwk hkvp
      have hklen : (dictKeys t.cards).length = 27 := by
        rw [dictKeys_length]
        exact hlen
      have hne := (List.nodup_iff_getElem?_ne_getElem?.mp hnd) j p hji (by omega)
      apply hne
      rw [hkeyj, hkeyp, e1, e2]
  obtain ⟨hliSome, hriEq, hliEqIf⟩ := pyIdxGeom p hplt
  obtain ⟨li, hli⟩ := Option.isSome_iff_exists.mp hliSome
  have hpcov : ∀ j ∈ coverers p, (dictValues t.cards)[j]? = some none :=
    covOk_gone (hcov p hplt) (Or.inr ⟨c, hp, hunc⟩)
  have hsp : (t.lastRowExists && (rowOf p == t.nRows)) = true → 21 ≤ p := by
    intro hbr2
    obtain ⟨hlre, h6⟩ : t.lastRowExists = true ∧ rowOf p = t.nRows := by simpa using hbr2
    have hstr : t.nRows = 6 ∧ t.nCards = 27 := by simpa [hlre] using hstruct
    exact (rowGeom p hplt).mpr (by omega)
  have hgen2 : ¬ (t.lastRowExists && (rowOf p == t.nRows)) = true → p < 21 := by
    intro hbr
    by_contra hge
    have h6 : rowOf p = 6 := (rowGeom p hplt).mp (by omega)
    match hlre : t.lastRowExists with
    | true =>
      have hstr : t.nRows = 6 ∧ t.nCards = 27 := by simpa [hlre] using hstruct
      apply hbr
      rw [hlre, h6, hstr.1]
      simp
    | false =>
      have hstr : t.nRows ≤ 6 ∧ t.nCards = comb t.nRows := by simpa [hlre] using hstruct
      have hc21 : comb t.nRows ≤ 21 := (combGeom t.nRows (by omega)).1
      have h2 := hout p hplt (by omega)
      rw [hp] at h2
      simp at h2
  obtain ⟨d1, hstep1, hvals1, hkeys1⟩ :
      ∃ d1 : TDict, removeStep1 t (dictValues t.cards) p li (p - rowOf p) = some d1 ∧
        dictValues d1 = postUncoverVals (dictValues t.cards) t.lastRowExists t.nRows p ∧
        dictKeys d1 = dictKeys t.cards := by
    by_cases hbr : (t.lastRowExists && (rowOf p == t.nRows)) = true
    · have h21 := hsp hbr
      obtain ⟨hrow6, hcovS, hge15, hlt21S⟩ := specialGeom p h21 hplt
      have hmem : p ∈ coverers (p - rowOf p) := by
        rw [hrow6, hcovS]
        simp
      obtain ⟨cd, hcd, hcdcov⟩ :=
        covOk_present (hcov (p - rowOf p) (by omega)) hvlen hmem hp
      refine ⟨setValAt t.cards (p - rowOf p) (some { cd with isCovered := false }), ?_, ?_, ?_⟩
      · simp only [removeStep1]
        rw [if_pos hbr]
        exact uncoverAt_some hcd
      · obtain ⟨hv, _⟩ := uncoverAt_values (uncoverAt_some hcd)
        rw [hv]
        simp only [postUncoverVals]
        rw [if_pos hbr]
      · exact (uncoverAt_values (uncoverAt_some hcd)).2
    · have hlt21 := hgen2 hbr
      obtain ⟨hgL, hgR, hxley, hyle5, hcomble, hylecomb⟩ := generalGeom p hlt21
      obtain ⟨dL, hLeft, hvalsL, hkeysL⟩ :
          ∃ dL : TDict,
            (if p - comb (rowOf p) ≠ 0 then
              match (dictValues t.cards)[p - 1]? with
              | none => none
              | some none => uncoverAt t.cards li
              | some (some _) => some t.cards
            else some t.cards) = some dL ∧
            dictValues dL =
              (if p - comb (rowOf p) ≠ 0 ∧ (dictValues t.cards)[p - 1]? = some none then
                uncovVals (dictValues t.cards) (p - rowOf p - 1)
              else dictValues t.cards) ∧
            dictKeys dL = dictKeys t.cards := by
        by_cases hx : p - comb (rowOf p) ≠ 0
        · obtain ⟨hcovL, hp1⟩ := hgL hx
          match hw1 : (dictValues t.cards)[p - 1]? with
          | none =>
            exfalso
            have hlt : p - 1 < (dictValues t.cards).length := by omega
            rcases List.getElem?_eq_some_iff.mpr ⟨hlt, rfl⟩ with h3
            rw [hw1] at h3
            exact Option.noConfusion h3
          | some none =>
            have hliv : li = p - rowOf p - 1 :=
              Option.some.inj (hli.symm.trans (hliEqIf hx))
            have hmem : p ∈ coverers (p - rowOf p - 1) := by
              rw [hcovL]
              simp
            obtain ⟨cdL, hcdL, _⟩ :=
              covOk_present (hcov (p - rowOf p - 1) (by omega)) hvlen hmem hp
            refine ⟨setValAt t.cards (p - rowOf p - 1) (some { cdL with isCovered := false }),
              ?_, ?_, ?_⟩
            · rw [if_pos hx, hliv]
              exact uncoverAt_some hcdL
            · obtain ⟨hv, _⟩ := uncoverAt_values (uncoverAt_some hcdL)
              rw [hv, if_pos ⟨hx, rfl⟩]
            · exact (uncoverAt_values (uncoverAt_some hcdL)).2
          | some (some w) =>
            refine ⟨t.cards, ?_, ?_, rfl⟩
            · rw [if_pos hx]
            · rw [if_neg]
              rintro ⟨h1, h2⟩
              exact Option.noConfusion (Option.some.inj h2)
        · refine ⟨t.cards, by rw [if_neg hx], ?_, rfl⟩
          rw [if_neg]
          rintro ⟨h1, _⟩
          exact hx h1
      by_cases hxy : p - comb (rowOf p) < rowOf p
      · obtain ⟨hcovR, hp1lt⟩ := hgR hxy
        match hw2 : (dictValues t.cards)[p + 1]? with
        | none =>
          exfalso
          have hlt : p + 1 < (dictValues t.cards).length := by omega
          rcases List.getElem?_eq_some_iff.mpr ⟨hlt, rfl⟩ with h3
          rw [hw2] at h3
          exact Option.noConfusion h3
        | some none =>
          have hmem : p ∈ coverers (p - rowOf p) := by
            rw [hcovR]
            simp
          obtain ⟨cdR, hcdR, _⟩ :=
            covOk_present (hcov (p - rowOf p) (by omega)) hvlen hmem hp
          have hdLval : (dictValues dL)[p - rowOf p]? = some (some cdR) := by
            rw [hvalsL]
            split
            · next hLc =>
              rw [uncovVals_getElem_ne]
              · exact hcdR
              · obtain ⟨hx0, _⟩ := hLc
                omega
            · exact hcdR
          refine ⟨setValAt dL (p - rowOf p) (some { cdR with isCovered := false }), ?_, ?_, ?_⟩
          · simp only [removeStep1]
            rw [if_neg hbr]
            simp only [hLeft]
            rw [if_pos hxy]
            simp only [hw2]
            exact uncoverAt_some hdLval
          · obtain ⟨hv, _⟩ := uncoverAt_values (uncoverAt_some hdLval)
            rw [hv]
            simp only [postUncoverVals]
            rw [if_neg hbr, if_pos ⟨hxy, hw2⟩, hvalsL]
          · exact ((uncoverAt_values (uncoverAt_some hdLval)).2).trans hkeysL
        | some (some w) =>
          refine ⟨dL, ?_, ?_, hkeysL⟩
          · simp only [removeStep1]
            rw [if_neg hbr]
            simp only [hLeft]
            rw [if_pos hxy]
            simp only [hw2]
          · rw [hvalsL]
            simp only [postUncoverVals]
            rw [if_neg hbr, if_neg (show ¬(p - comb (rowOf p) < rowOf p ∧
                (dictValues t.cards)[p + 1]? = some none) from by
              rintro ⟨h1, h2⟩
              rw [hw2] at h2
              exact Option.noConfusion (Option.some.inj h2))]
      · refine ⟨dL, ?_, ?_, hkeysL⟩
        · simp only [removeStep1]
          rw [if_neg hbr]
          simp only [hLeft]
          rw [if_neg hxy]
        · rw [hvalsL]
          simp only [postUncoverVals]
          rw [if_neg hbr, if_neg (show ¬(p - comb (rowOf p) < rowOf p ∧
              (dictValues t.cards)[p + 1]? = some none) from by
            rintro ⟨h1, _⟩
            exact hxy h1)]
  have hy0 : (t.lastRowExists && (rowOf p == t.nRows)) = true → rowOf p ≠ 0 := by
    intro hbr2
    obtain ⟨hlre, h6⟩ : t.lastRowExists = true ∧ rowOf p = t.nRows := by simpa using hbr2
    have hstr : t.nRows = 6 ∧ t.nCards = 27 := by simpa [hlre] using hstruct
    omega
  have hvals1p : (dictValues d1)[p]? = some (some c) := by
    rw [hvals1]
    exact postUncoverVals_at_p hp hy0
  obtain ⟨hvalsD2, hkeysD2⟩ := blank_step hnd hwk hp hkeys1 hvals1p
  have hremove := remove_eq_of_step1 hvlen hfind hplt hli hriEq hstep1
  have hd1len : (dictValues d1).length = 27 := by
    rw [hvals1, postUncoverVals_length]
    exact hvlen
  have hpostlen : ((dictValues d1).set p none).length = 27 := by
    rw [List.length_set]
    exact hd1len
  have hpresVa : ∀ j : Nat, ((dictValues d1).set p none)[j]? = some none ↔
      ((dictValues t.cards)[j]? = some none ∨ j = p) := by
    intro j
    by_cases hj : j = p
    · subst hj
      have hself : ((dictValues d1).set j none)[j]? = some none :=
        List.getElem?_set_self (by omega)
      simp [hself]
    · rw [List.getElem?_set_ne (Ne.symm hj), hvals1, postUncoverVals_none_iff]
      constructor
      · exact Or.inl
      · rintro (h | h)
        · exact h
        · exact absurd h hj
  have hflagsVa := postUncoverVals_flags t.lastRowExists t.nRows hvlen hplt hp hsp hgen2
  rw [← hvals1] at hflagsVa
  have hcovVa : ∀ q : Nat, q < 27 → covOkAt ((dictValues d1).set p none) q = true :=
    covOk_transfer hvlen hpostlen hpresVa hflagsVa hp hpcov hcov
  have hidVa : ∀ j : Nat, ∀ d : Card, ((dictValues d1).set p none)[j]? = some (some d) →
      ∃ d0 : Card, (dictValues t.cards)[j]? = some (some d0) ∧ cId d = cId d0 := by
    intro j d hj
    by_cases hjp : j = p
    · subst hjp
      rw [List.getElem?_set_self (by omega)] at hj
      exact Option.noConfusion (Option.some.inj hj)
    · rw [List.getElem?_set_ne (Ne.symm hjp), hvals1] at hj
      exact postUncoverVals_id hj
  cases hw : windowClear ((dictValues d1).set p none) t.nCards t.nRows with
  | false =>
    refine ⟨{ t with cards := dictSet d1 (cId c) none }, ?_, ?_, ?_, ?_, ?_, ?_, ?_⟩
    · rw [hremove, hw]
      simp
    · show dictValues (dictSet d1 (cId c) none) =
        (postUncoverVals (dictValues t.cards) t.lastRowExists t.nRows p).set p none
      rw [hvalsD2, hvals1]
    · exact hkeysD2.trans hkeys1
    · show t.nCards =
        (if windowClear (dictValues (dictSet d1 (cId c) none)) t.nCards t.nRows
         then t.nCards - t.nRows else t.nCards)
      rw [hvalsD2, hw]
      simp
    · show t.lastRowExists =
        (if windowClear (dictValues (dictSet d1 (cId c) none)) t.nCards t.nRows
         then false else t.lastRowExists)
      rw [hvalsD2, hw]
      simp
    · show t.nRows =
        (if windowClear (dictValues (dictSet d1 (cId c) none)) t.nCards t.nRows
         then (if t.lastRowExists then t.nRows else t.nRows - 1) else t.nRows)
      rw [hvalsD2, hw]
      simp
    · apply tableInv_assemble hInv (hkeysD2.trans hkeys1)
      · rw [← dictKeys_length, hkeysD2.trans hkeys1, dictKeys_length]
        exact hlen
      · intro j d hj
        rw [show dictValues ({ t with cards := dictSet d1 (cId c) none } : Table).cards =
            (dictValues d1).set p none from hvalsD2] at hj
        exact hidVa j d hj
      · exact hstruct
      · intro i hi hge
        rw [show dictValues ({ t with cards := dictSet d1 (cId c) none } : Table).cards =
            (dictValues d1).set p none from hvalsD2]
        exact (hpresVa i).mpr (Or.inl (hout i hi hge))
      · intro q hq
        rw [show dictValues ({ t with cards := dictSet d1 (cId c) none } : Table).cards =
            (dictValues d1).set p none from hvalsD2]
        exact hcovVa q hq
  | true =>
    have hwin := (@windowClear_iff ((dictValues d1).set p none) t.nCards t.nRows
      (by omega)).mp hw
    refine ⟨{ nRows := if t.lastRowExists then t.nRows else t.nRows - 1, nCards := t.nCards - t.nRows, cards := dictSet d1 (cId c) none, lastRowExists := false }, ?_, ?_, ?_, ?_, ?_, ?_, ?_⟩
    · rw [hremove, hw]
      simp
    · show dictValues (dictSet d1 (cId c) none) =
        (postUncoverVals (dictValues t.cards) t.lastRowExists t.nRows p).set p none
      rw [hvalsD2, hvals1]
    · exact hkeysD2.trans hkeys1
    · show t.nCards - t.nRows =
        (if windowClear (dictValues (dictSet d1 (cId c) none)) t.nCards t.nRows
         then t.nCards - t.nRows else t.nCards)
      rw [hvalsD2, hw]
      simp
    · show false =
        (if windowClear (dictValues (dictSet d1 (cId c) none)) t.nCards t.nRows
         then false else t.lastRowExists)
      rw [hvalsD2, hw]
      simp
    · show (if t.lastRowExists then t.nRows else t.nRows - 1) =
        (if windowClear (dictValues (dictSet d1 (cId c) none)) t.nCards t.nRows
         then (if t.lastRowExists then t.nRows else t.nRows - 1) else t.nRows)
      rw [hvalsD2, hw]
      simp
    · apply tableInv_assemble hInv (hkeysD2.trans hkeys1)
      · rw [← dictKeys_length, hkeysD2.trans hkeys1, dictKeys_length]
        exact hlen
      · intro j d hj
        rw [show dictValues ({ nRows := if t.lastRowExists then t.nRows else t.nRows - 1, nCards := t.nCards - t.nRows, cards := dictSet d1 (cId c) none, lastRowExists := false } : Table).cards = (dictValues d1).set p none from hvalsD2] at hj
        exact hidVa j d hj
      · show (if t.lastRowExists then t.nRows else t.nRows - 1) ≤ 6 ∧
          t.nCards - t.nRows = comb (if t.lastRowExists then t.nRows else t.nRows - 1)
        match hlre : t.lastRowExists with
        | true =>
          have hstr : t.nRows = 6 ∧ t.nCards = 27 := by simpa [hlre] using hstruct
          rw [if_pos rfl, hstr.1, hstr.2]
          exact ⟨by omega, by rfl⟩
        | false =>
          have hstr : t.nRows ≤ 6 ∧ t.nCards = comb t.nRows := by simpa [hlre] using hstruct
          have hnR1 : 1 ≤ t.nRows := by
            by_contra h0
            have h00 : t.nRows = 0 := by omega
            rw [h00] at hstr
            have hc0 : comb 0 = 0 := by rfl
            omega
          have hcb := (combGeom t.nRows (by omega)).2 hnR1
          rw [if_neg (by simp), hstr.2, hcb]
          exact ⟨by omega, rfl⟩
      · intro i hi hge
        rw [show dictValues ({ nRows := if t.lastRowExists then t.nRows else t.nRows - 1, nCards := t.nCards - t.nRows, cards := dictSet d1 (cId c) none, lastRowExists := false } : Table).cards = (dictValues d1).set p none from hvalsD2]
        by_cases hiC : i < t.nCards
        · exact hwin i hge hiC
        · exact (hpresVa i).mpr (Or.inl (hout i hi (by omega)))
      · intro q hq
        rw [show dictValues ({ nRows := if t.lastRowExists then t.nRows else t.nRows - 1, nCards := t.nCards - t.nRows, cards := dictSet d1 (cId c) none, lastRowExists := false } : Table).cards = (dictValues d1).set p none from hvalsD2]
        exact hcovVa q hq

/-! ## Conservation of the 40 card identities -/

/-- The cards currently occupying tableau slots. -/
def tableCards (t : Table) : List Card := (dictValues t.cards).filterMap id

/-- The card identities of a slot value list, in slot order. -/
def idsOfVals (vals : List (Option Card)) : List TKey :=
  vals.filterMap fun o => o.map cId

/-- All identities across the four collections: draw pile, discard pile,
occupied tableau slots, completed pile. -/
def allIds (g : GameManager) : List TKey :=
  g.deck.map cId ++ g.pile.map cId ++ (tableCards g.table).map cId ++ g.comp.map cId

/-- Conservation: the four collections together hold exactly the 40 card
identities of the full deck. -/
def Cons (g : GameManager) : Prop := (allIds g).Perm (fullDeck.map cId)

/-- The global game invariant: conservation plus the tableau invariant. -/
def GInv (g : GameManager) : Prop := Cons g ∧ TableInv g.table

theorem tableCards_ids (t : Table) :
    (tableCards t).map cId = idsOfVals (dictValues t.cards) := by
  simp [tableCards, idsOfVals, List.map_filterMap]

theorem idsOfVals_congr {va vb : List (Option Card)}
    (h : va.map (Option.map cId) = vb.map (Option.map cId)) :
    idsOfVals va = idsOfVals vb := by
  have ha : idsOfVals va = (va.map (Option.map cId)).filterMap id := by
    rw [List.filterMap_map]
    rfl
  have hb : idsOfVals vb = (vb.map (Option.map cId)).filterMap id := by
    rw [List.filterMap_map]
    rfl
  rw [ha, hb, h]

theorem postUncoverVals_mapIds (vals : List (Option Card)) (lre : Bool) (nR p : Nat) :
    (postUncoverVals vals lre nR p).map (Option.map cId) = vals.map (Option.map cId) := by
  apply List.ext_getElem?
  intro j
  rw [List.getElem?_map, List.getElem?_map]
  match hv : vals[j]? with
  | none =>
    have hj : vals.length ≤ j := by
      by_contra hc
      rcases List.getElem?_eq_some_iff.mpr ⟨Nat.lt_of_not_le hc, rfl⟩ with h2
      simp [hv] at h2
    have : (postUncoverVals vals lre nR p)[j]? = none := by
      apply List.getElem?_eq_none
      rw [postUncoverVals_length]
      exact hj
    rw [this]
  | some none =>
    rw [(postUncoverVals_none_iff vals lre nR p j).mpr hv]
  | some (some d0) =>
    have hjlt : j < vals.length := (List.getElem?_eq_some_iff.mp hv).1
    match hva : (postUncoverVals vals lre nR p)[j]? with
    | none =>
      exfalso
      have : j < (postUncoverVals vals lre nR p).length := by
        rw [postUncoverVals_length]
        exact hjlt
      rcases List.getElem?_eq_some_iff.mpr ⟨this, rfl⟩ with h2
      simp [hva] at h2
    | some none =>
      exfalso
      have := (postUncoverVals_none_iff vals lre nR p j).mp hva
      rw [hv] at this
      simp at this
    | some (some d) =>
      rcases postUncoverVals_id hva with ⟨d1, hd1, hid⟩
      rw [hv] at hd1
      simp only [Option.some.injEq] at hd1
      cases hd1
      simp [hid]

theorem set_decomp {α : Type} {l : List α} {p : Nat} (h : p < l.length) (b : α) :
    l.set p b = l.take p ++ b :: l.drop (p + 1) := by
  apply List.ext_getElem?
  intro n
  rw [List.getElem?_set]
  rcases Nat.lt_trichotomy n p with hlt | heq | hgt
  · rw [if_neg (by omega), List.getElem?_append_left (by simp; omega),
      List.getElem?_take_of_lt hlt]
  · subst heq
    rw [if_pos rfl, if_pos h]
    have hlen : (l.take n).length = n := by simp; omega
    rw [List.getElem?_append_right (by omega), hlen]
    simp
  · rw [if_neg (by omega)]
    have hlen : (l.take p).length = p := by simp; omega
    rw [List.getElem?_append_right (by omega), hlen]
    match hnp : n - p with
    | 0 => omega
    | m + 1 =>
      simp only [List.getElem?_cons_succ, List.getElem?_drop]
      congr 1
      omega

theorem list_decomp {α : Type} {l : List α} {p : Nat} {a : α}
    (h : l[p]? = some a) : l = l.take p ++ a :: l.drop (p + 1) := by
  rcases List.getElem?_eq_some_iff.mp h with ⟨hlt, hval⟩
  conv_lhs => rw [← List.take_append_drop p l]
  congr 1
  rw [List.drop_eq_getElem_cons hlt, hval]

theorem idsOfVals_append (va vb : List (Option Card)) :
    idsOfVals (va ++ vb) = idsOfVals va ++ idsOfVals vb := by
  simp [idsOfVals]

theorem idsOfVals_set_none {va : List (Option Card)} {p : Nat} {c : Card}
    (h : va[p]? = some (some c)) :
    (idsOfVals va).Perm (cId c :: idsOfVals (va.set p none)) := by
  have hlt : p < va.length := (List.getElem?_eq_some_iff.mp h).1
  have h1 : va = va.take p ++ some c :: va.drop (p + 1) := list_decomp h
  have h2 : va.set p none = va.take p ++ none :: va.drop (p + 1) := set_decomp hlt none
  rw [h2, idsOfVals_append]
  conv_lhs => rw [h1, idsOfVals_append]
  have h3 : idsOfVals (some c :: va.drop (p + 1)) = cId c :: idsOfVals (va.drop (p + 1)) := by
    simp [idsOfVals]
  have h4 : idsOfVals ((none : Option Card) :: va.drop (p + 1)) = idsOfVals (va.drop (p + 1)) := by
    simp [idsOfVals]
  rw [h3, h4]
  exact List.perm_middle

theorem count_shuffle_pile {A P T K P' : List TKey} {x : TKey}
    (hP : P.Perm (x :: P')) :
    (A ++ P' ++ T ++ (K ++ [x])).Perm (A ++ P ++ T ++ K) := by
  apply List.perm_iff_count.mpr
  intro a
  have hc := List.perm_iff_count.mp hP a
  simp only [List.count_append, List.count_cons, List.count_nil] at hc ⊢
  omega

theorem count_shuffle_table {A P T K T' : List TKey} {x : TKey}
    (hT : T.Perm (x :: T')) :
    (A ++ P ++ T' ++ (K ++ [x])).Perm (A ++ P ++ T ++ K) := by
  apply List.perm_iff_count.mpr
  intro a
  have hc := List.perm_iff_count.mp hT a
  simp only [List.count_append, List.count_cons, List.count_nil] at hc ⊢
  omega

theorem count_shuffle_draw {A P T K A' : List TKey} {x : TKey}
    (hA : A = A' ++ [x]) :
    (A' ++ (P ++ [x]) ++ T ++ K).Perm (A ++ P ++ T ++ K) := by
  subst hA
  apply List.perm_iff_count.mpr
  intro a
  simp only [List.count_append, List.count_cons, List.count_nil] at *
  omega

/-! ## Characterizing table construction -/

theorem dictSet_fresh {d : TDict} {k : TKey} (h : k ∉ dictKeys d) (v : Option Card) :
    dictSet d k v = d ++ [(k, v)] := by
  induction d with
  | nil => rfl
  | cons kv rest ih =>
    have h1 : kv.1 ≠ k := by
      intro he
      exact h (by simp [dictKeys, he])
    have h2 : k ∉ dictKeys rest := by
      intro hm
      apply h
      simp only [dictKeys, List.map_cons, List.mem_cons]
      exact Or.inr (by simpa [dictKeys] using hm)
    simp [dictSet, h1, ih h2]

theorem dictSet_append_notin {d e : TDict} {k : TKey} (h : k ∉ dictKeys d) (v : Option Card) :
    dictSet (d ++ e) k v = d ++ dictSet e k v := by
  induction d with
  | nil => rfl
  | cons kv rest ih =>
    have h1 : kv.1 ≠ k := by
      intro he
      exact h (by simp [dictKeys, he])
    have h2 : k ∉ dictKeys rest := by
      intro hm
      apply h
      simp only [dictKeys, List.map_cons, List.mem_cons]
      exact Or.inr (by simpa [dictKeys] using hm)
    simp [dictSet, h1, ih h2]

theorem foldl_insert_fresh (cs : List Card) : ∀ d : TDict,
    (∀ c ∈ cs, cId c ∉ dictKeys d) → (cs.map cId).Nodup →
    cs.foldl (fun d c => dictSet d (cId c) (some c)) d
      = d ++ cs.map fun c => (cId c, some c) := by
  induction cs with
  | nil =>
    intro d _ _
    simp
  | cons u us ih =>
    intro d hdis hnd
    have hnd' : (∀ x ∈ us, ¬ cId x = cId u) ∧ (us.map cId).Nodup := by simpa using hnd
    have hdis' : ∀ c ∈ us, cId c ∉ dictKeys (d ++ [(cId u, some u)]) := by
      intro c hc hm
      have hkeys : dictKeys (d ++ [(cId u, some u)]) = dictKeys d ++ [cId u] := by
        simp [dictKeys]
      rw [hkeys] at hm
      rcases List.mem_append.mp hm with hm | hm
      · exact hdis c (List.mem_cons_of_mem u hc) hm
      · simp only [List.mem_singleton] at hm
        exact hnd'.1 c hc hm
    simp only [List.foldl_cons, List.map_cons]
    rw [dictSet_fresh (hdis u (List.mem_cons_self u us)) (some u),
      ih (d ++ [(cId u, some u)]) hdis' hnd'.2]
    simp

theorem foldl_update (f : Card → Card) (hf : ∀ c : Card, cId (f c) = cId c)
    (us : List Card) : ∀ dpre : TDict,
    (∀ c ∈ us, cId c ∉ dictKeys dpre) → (us.map cId).Nodup →
    us.foldl (fun d c => dictSet d (cId c) (some (f c)))
        (dpre ++ us.map fun c => (cId c, some c))
      = dpre ++ us.map fun c => (cId c, some (f c)) := by
  induction us with
  | nil =>
    intro dpre _ _
    simp
  | cons u us ih =>
    intro dpre hdis hnd
    have hnd' : (∀ x ∈ us, ¬ cId x = cId u) ∧ (us.map cId).Nodup := by simpa using hnd
    have hdis' : ∀ c ∈ us, cId c ∉ dictKeys (dpre ++ [(cId u, some (f u))]) := by
      intro c hc hm
      have hkeys : dictKeys (dpre ++ [(cId u, some (f u))]) = dictKeys dpre ++ [cId u] := by
        simp [dictKeys, hf u]
      rw [hkeys] at hm
      rcases List.mem_append.mp hm with hm | hm
      · exact hdis c (List.mem_cons_of_mem u hc) hm
      · simp only [List.mem_singleton] at hm
        exact hnd'.1 c hc hm
    simp only [List.foldl_cons, List.map_cons]
    have hstep : dictSet (dpre ++ (cId u, some u) :: us.map fun c => (cId c, some c))
        (cId u) (some (f u))
        = (dpre ++ [(cId u, some (f u))]) ++ us.map fun c => (cId c, some c) := by
      rw [dictSet_append_notin (hdis u (List.mem_cons_self u us))]
      simp [dictSet]
    rw [hstep, ih (dpre ++ [(cId u, some (f u))]) hdis' hnd'.2]
    simp

/-- The dict produced by construction from the 27 consumed cards `cs`: the 21
triangle cards stored as-is, the 6 special-row cards stored uncovered. -/
def initCardsSpec (cs : List Card) : TDict :=
  (cs.take 21).map (fun c => (cId c, some c)) ++
    (cs.drop 21).map fun c => (cId c, some { c with isCovered := false })

theorem tableInit_eq (deck : List Card) (hnd : ((deck.take 27).map cId).Nodup) :
    Table.init deck =
      ({ nRows := 6, nCards := 27, cards := initCardsSpec (deck.take 27),
         lastRowExists := true }, deck.drop 27) := by
  have hsplitIds : ((deck.take 27).take 21).map cId ++ ((deck.take 27).drop 21).map cId
      = (deck.take 27).map cId := by
    rw [← List.map_append, List.take_append_drop]
  have hndsplit : (((deck.take 27).take 21).map cId ++ ((deck.take 27).drop 21).map cId).Nodup := by
    rw [hsplitIds]
    exact hnd
  obtain ⟨hnd1, hnd2, hdisj⟩ := List.nodup_append.mp hndsplit
  have hdis0 : ∀ c ∈ deck.take 27, cId c ∉ dictKeys ([] : TDict) := by
    simp [dictKeys]
  have h1 := foldl_insert_fresh (deck.take 27) [] hdis0 hnd
  have hdpreKeys : dictKeys (((deck.take 27).take 21).map fun c => (cId c, some c))
      = ((deck.take 27).take 21).map cId := by
    simp [dictKeys, List.map_map]
    rfl
  have hdis1 : ∀ c ∈ (deck.take 27).drop 21,
      cId c ∉ dictKeys (((deck.take 27).take 21).map fun c => (cId c, some c)) := by
    intro c hc hm
    rw [hdpreKeys] at hm
    exact hdisj hm (List.mem_map_of_mem cId hc)
  have hfin : cId = fun c : Card => cId { c with isCovered := false } := by
    funext c
    rfl
  have h2 := foldl_update (fun c => { c with isCovered := false }) (fun c => rfl)
    ((deck.take 27).drop 21) (((deck.take 27).take 21).map fun c => (cId c, some c))
    hdis1 hnd2
  simp only [Table.init, show (comb 6 + 6 : Nat) = 27 from rfl,
    show (27 - 6 : Nat) = 21 from rfl]
  rw [show (deck.take 27).foldl (fun d c => dictSet d (cId c) (some c)) []
      = ((deck.take 27).take 21).map (fun c => (cId c, some c))
        ++ ((deck.take 27).drop 21).map (fun c => (cId c, some c)) from by
    rw [h1, ← List.map_append, List.take_append_drop]
    simp]
  rw [h2]
  rfl

theorem initVals (cs : List Card) :
    dictValues (initCardsSpec cs) =
      (cs.take 21).map (fun c => some c)
        ++ (cs.drop 21).map fun c => some { c with isCovered := false } := by
  unfold dictValues initCardsSpec
  rw [List.map_append, List.map_map, List.map_map]
  rfl

theorem initKeys (cs : List Card) : dictKeys (initCardsSpec cs) = cs.map cId := by
  have h1 : dictKeys (initCardsSpec cs) = (cs.take 21).map cId ++ (cs.drop 21).map cId := by
    unfold dictKeys initCardsSpec
    rw [List.map_append, List.map_map, List.map_map]
    rfl
  rw [h1, ← List.map_append, List.take_append_drop]

theorem initIds (cs : List Card) : idsOfVals (dictValues (initCardsSpec cs)) = cs.map cId := by
  rw [initVals]
  unfold idsOfVals
  rw [List.filterMap_append, List.filterMap_map, List.filterMap_map]
  have h1 : List.filterMap ((fun o : Option Card => o.map cId) ∘ fun c : Card => some c)
      (cs.take 21) = (cs.take 21).map cId := by
    rw [List.filterMap_eq_map_iff_forall_eq_some.mpr]
    intro c _
    rfl
  have h2 : List.filterMap ((fun o : Option Card => o.map cId)
      ∘ fun c : Card => some { c with isCovered := false }) (cs.drop 21)
      = (cs.drop 21).map cId := by
    rw [List.filterMap_eq_map_iff_forall_eq_some.mpr]
    intro c _
    rfl
  rw [h1, h2, ← List.map_append, List.take_append_drop]

theorem tableInit_inv (deck : List Card) (hlen : 27 ≤ deck.length)
    (hnd : ((deck.take 27).map cId).Nodup)
    (hcov : ∀ c ∈ deck.take 27, c.isCovered = true) :
    TableInv (Table.init deck).1 := by
  rw [tableInit_eq deck hnd]
  rw [tableInv_iff]
  have hcslen : (deck.take 27).length = 27 := by
    rw [List.length_take]
    omega
  have hlen1 : ((deck.take 27).take 21).length = 21 := by
    rw [List.length_take, hcslen]
    decide
  have hlen2 : ((deck.take 27).drop 21).length = 6 := by
    rw [List.length_drop, hcslen]
  have hvals := initVals (deck.take 27)
  have hvq : ∀ q : Nat, q < 21 → ∃ c : Card, c ∈ deck.take 27 ∧ c.isCovered = true ∧
      (dictValues (initCardsSpec (deck.take 27)))[q]? = some (some c) := by
    intro q hq
    rw [hvals]
    match hcq : (deck.take 27)[q]? with
    | none =>
      exfalso
      have h2 := List.getElem?_eq_none_iff.mp hcq
      rw [hcslen] at h2
      omega
    | some c =>
      refine ⟨c, (List.mem_iff_getElem? (l := deck.take 27)).mpr ⟨q, hcq⟩, ?_, ?_⟩
      · exact hcov c ((List.mem_iff_getElem? (l := deck.take 27)).mpr ⟨q, hcq⟩)
      · rw [List.getElem?_append_left (by rw [List.length_map, hlen1]; omega),
          List.getElem?_map, List.getElem?_take_of_lt hq, hcq]
        rfl
  have hvq2 : ∀ q : Nat, 21 ≤ q → q < 27 → ∃ c : Card,
      (dictValues (initCardsSpec (deck.take 27)))[q]? =
        some (some { c with isCovered := false }) := by
    intro q h21 hq
    rw [hvals]
    match hcq : ((deck.take 27).drop 21)[q - 21]? with
    | none =>
      exfalso
      have h2 := List.getElem?_eq_none_iff.mp hcq
      rw [hlen2] at h2
      omega
    | some c =>
      refine ⟨c, ?_⟩
      rw [List.getElem?_append_right (by rw [List.length_map, hlen1]; omega)]
      rw [List.length_map, hlen1, List.getElem?_map, hcq]
      rfl
  refine ⟨?_, ?_, ?_, ?_, ?_, ?_⟩
  · show (initCardsSpec (deck.take 27)).length = 27
    unfold initCardsSpec
    rw [List.length_append, List.length_map, List.length_map, hlen1, hlen2]
  · intro kv hkv
    unfold initCardsSpec at hkv
    rcases List.mem_append.mp hkv with hm | hm <;>
      rcases List.mem_map.mp hm with ⟨c, hc, rfl⟩ <;>
      simp [entryWellKeyed, cId]
  · show (dictKeys (initCardsSpec (deck.take 27))).Nodup
    rw [initKeys]
    exact hnd
  · simp
  · intro i hi hge
    exfalso
    have h27 : (27 : Nat) ≤ i := hge
    omega
  · intro q hq
    by_cases hq21 : q < 21
    · rcases hvq q hq21 with ⟨c, _, hcc, hval⟩
      unfold covOkAt
      rw [hval]
      simp [hcc]
    · rcases hvq2 q (by omega) hq with ⟨c, hval⟩
      unfold covOkAt
      have hcovq : coverers q = [] := by
        unfold coverers
        rw [if_pos (by omega)]
      rw [hval]
      simp [hcovq]

theorem fullDeck_covered : ∀ c ∈ fullDeck, c.isCovered = true := by decide

theorem fullDeck_ids_nodup : (fullDeck.map cId).Nodup := by decide

theorem perm_facts {deck : List Card} (hperm : deck.Perm fullDeck) :
    27 ≤ deck.length ∧ ((deck.take 27).map cId).Nodup ∧
      (∀ c ∈ deck.take 27, c.isCovered = true) := by
  have hlen : deck.length = 40 := by
    rw [hperm.length_eq]
    rfl
  have hnd : (deck.map cId).Nodup :=
    ((hperm.map cId).nodup_iff).mpr fullDeck_ids_nodup
  refine ⟨by omega, ?_, ?_⟩
  · exact ((List.take_sublist 27 deck).map cId).nodup hnd
  · intro c hc
    have hc2 : c ∈ deck := (List.take_sublist 27 deck).subset hc
    exact fullDeck_covered c (hperm.mem_iff.mp hc2)

theorem init_ginv (deck : List Card) (hperm : deck.Perm fullDeck) :
    GInv (GameManager.init deck) := by
  obtain ⟨hlen, hnd, hcov⟩ := perm_facts hperm
  have hT := tableInit_eq deck hnd
  have hdeck : (GameManager.init deck).deck = deck.drop 27 := by
    unfold GameManager.init
    rw [hT]
  have htable : (GameManager.init deck).table =
      { nRows := 6, nCards := 27, cards := initCardsSpec (deck.take 27),
        lastRowExists := true } := by
    unfold GameManager.init
    rw [hT]
  constructor
  · unfold Cons allIds
    rw [hdeck, htable, tableCards_ids]
    show ((deck.drop 27).map cId ++ ([] : List Card).map cId
        ++ idsOfVals (dictValues (initCardsSpec (deck.take 27)))
        ++ ([] : List Card).map cId).Perm (fullDeck.map cId)
    rw [initIds]
    simp only [List.map_nil, List.nil_append, List.append_nil]
    have h1 : ((deck.drop 27).map cId ++ (deck.take 27).map cId).Perm (deck.map cId) := by
      have h2 := @List.perm_append_comm _ ((deck.drop 27).map cId)
        ((deck.take 27).map cId)
      apply h2.trans
      rw [← List.map_append, List.take_append_drop]
    exact h1.trans (hperm.map cId)
  · exact tableInit_inv deck hlen hnd hcov

/-! ## Locating selected cards and removal soundness -/

/-- Where a card returned by `selectCard` can sit: at the discard pile's top or
second-from-top slot, or face-up in an occupied tableau slot. -/
def cardLoc (g : GameManager) (c : Card) : Prop :=
  (g.pile.getLast? = some c ∨ secondLast g.pile = some c) ∨
    ∃ p : Nat, (dictValues g.table.cards)[p]? = some (some c) ∧ c.isCovered = false

theorem mem_of_pileLoc {cs : List Card} {c : Card}
    (h : cs.getLast? = some c ∨ secondLast cs = some c) : c ∈ cs := by
  rcases h with h | h
  · rw [List.getLast?_eq_getElem?] at h
    exact (List.mem_iff_getElem? (l := cs)).mpr ⟨cs.length - 1, h⟩
  · unfold secondLast at h
    split at h
    · cases h
    · exact (List.mem_iff_getElem? (l := cs)).mpr ⟨cs.length - 2, h⟩

theorem mem_tableCards_of_val {t : Table} {p : Nat} {c : Card}
    (h : (dictValues t.cards)[p]? = some (some c)) : c ∈ tableCards t := by
  unfold tableCards
  rw [List.mem_filterMap]
  exact ⟨some c, (List.mem_iff_getElem? (l := dictValues t.cards)).mpr ⟨p, h⟩, rfl⟩

theorem pileSelect_loc {cs : List Card} {s : Suit} {r : Nat} {c : Card}
    (h : DiscardPile.select cs s r = some c) :
    cs.getLast? = some c ∨ secondLast cs = some c := by
  unfold DiscardPile.select Deck.select at h
  rcases hl : cs.getLast? with _ | top
  · simp only [hl] at h
    by_cases hlen : cs.length < 2
    · simp [hlen] at h
    · simp only [if_neg hlen] at h
      rcases hsl : secondLast cs with _ | next
      · simp [hsl] at h
      · simp only [hsl] at h
        by_cases hex : next.isExactly s r = true
        · simp [hex] at h
          exact Or.inr (congrArg some h)
        · simp [hex] at h
  · simp only [hl] at h
    by_cases htop : top.isExactly s r = true
    · simp [htop] at h
      exact Or.inl (congrArg some h)
    · simp only [if_neg htop] at h
      by_cases hlen : cs.length < 2
      · simp [hlen] at h
      · simp only [if_neg hlen] at h
        rcases hsl : secondLast cs with _ | next
        · simp [hsl] at h
        · simp only [hsl] at h
          by_cases hex : next.isExactly s r = true
          · simp [hex] at h
            exact Or.inr (congrArg some h)
          · simp [hex] at h

theorem tableSelect_loc {t : Table} {s : Suit} {r : Nat} {c : Card}
    (h : Table.select t s r = some c) :
    ∃ p : Nat, (dictValues t.cards)[p]? = some (some c) ∧ c.isCovered = false := by
  unfold Table.select at h
  rcases hg : dictGet t.cards (s, r) with _ | o
  · simp [hg] at h
  · rcases o with _ | d
    · simp [hg] at h
    · simp only [hg] at h
      by_cases hc : d.isCovered = true
      · simp [hc] at h
      · simp [hc] at h
        subst h
        rcases dictGet_some_pos hg with ⟨p, hp⟩
        refine ⟨p, ?_, by simpa using hc⟩
        rw [dictValues_getElem?, hp]
        rfl

theorem selectCard_loc {g : GameManager} {s : String} {c : Card} {fl : Bool}
    (h : selectCard g s = .ok (c, fl)) : cardLoc g c := by
  unfold selectCard at h
  rcases h0 : matchSpecifier s with _ | sp
  · simp [h0] at h
  · obtain ⟨spec, suit⟩ := sp
    simp only [h0] at h
    rcases h1 : (match spec with | Spec.face r => some r | Spec.numeric n => intoRank n)
      with _ | rank
    · simp [h1] at h
    · simp only [h1] at h
      rcases h2 : DiscardPile.select g.pile suit rank with _ | card
      · simp only [h2] at h
        rcases h3 : Table.select g.table suit rank with _ | card
        · simp [h3] at h
        · simp only [h3] at h
          simp only [Except.ok.injEq, Prod.mk.injEq] at h
          exact Or.inr (h.1 ▸ tableSelect_loc h3)
      · simp only [h2] at h
        simp only [Except.ok.injEq, Prod.mk.injEq] at h
        exact Or.inl (h.1 ▸ pileSelect_loc h2)

theorem pileRemove_of_loc {cs : List Card} {c : Card}
    (h : cs.getLast? = some c ∨ secondLast cs = some c) :
    ∃ cs2 : List Card, DiscardPile.remove cs c = some cs2 := by
  have hne : cs.isEmpty = false := by
    have := mem_of_pileLoc h
    match cs with
    | [] => cases this
    | a :: l => rfl
  unfold DiscardPile.remove
  rw [hne]
  simp only [Bool.false_eq_true, if_false]
  by_cases h1 : cs.getLast? = some c
  · rw [if_pos h1]
    exact ⟨cs.dropLast, rfl⟩
  · rw [if_neg h1]
    rcases h with h | h
    · exact absurd h h1
    · have hlen : 1 < cs.length := by
        unfold secondLast at h
        by_contra hle
        rw [if_pos (by omega)] at h
        cases h
      rw [if_pos ⟨hlen, h⟩]
      exact ⟨popSecondLast cs, rfl⟩

theorem pileRemove_perm {cs cs2 : List Card} {c : Card}
    (h : DiscardPile.remove cs c = some cs2) : cs.Perm (c :: cs2) := by
  unfold DiscardPile.remove at h
  split at h
  · cases h
  · split at h
    · next hl =>
      cases Option.some.inj h
      have hlt : cs.length - 1 < cs.length := by
        match cs with
        | [] => cases hl
        | a :: l => simp
      rw [List.getLast?_eq_getElem?] at hl
      have hdec : cs = cs.dropLast ++ [c] := by
        have h1 : cs = cs.take (cs.length - 1) ++ c :: cs.drop (cs.length - 1 + 1) :=
          list_decomp hl
        have h2 : cs.drop (cs.length - 1 + 1) = [] := by
          apply List.drop_eq_nil_of_le
          omega
        rw [h2] at h1
        rw [← List.dropLast_eq_take] at h1
        exact h1
      conv_lhs => rw [hdec]
      exact List.perm_append_comm
    · split at h
      · next h2 =>
        cases Option.some.inj h
        obtain ⟨hlen, hsl⟩ := h2
        unfold secondLast at hsl
        rw [if_neg (by omega)] at hsl
        have hdec : cs = cs.take (cs.length - 2) ++ c :: cs.drop (cs.length - 1) := by
          have h1 := list_decomp hsl
          rw [show cs.length - 2 + 1 = cs.length - 1 from by omega] at h1
          exact h1
        conv_lhs => rw [hdec]
        exact List.perm_middle
      · cases h

theorem pileRemove_none_of_notmem {cs : List Card} {c : Card} (h : c ∉ cs) :
    DiscardPile.remove cs c = none := by
  unfold DiscardPile.remove
  by_cases he : cs.isEmpty
  · rw [if_pos he]
  · rw [if_neg he]
    have h1 : ¬ cs.getLast? = some c := by
      intro hl
      exact h (mem_of_pileLoc (Or.inl hl))
    have h2 : ¬ (1 < cs.length ∧ secondLast cs = some c) := by
      rintro ⟨hlen, hsl⟩
      exact h (mem_of_pileLoc (Or.inr hsl))
    rw [if_neg h1, if_neg h2]

theorem allIds_nodup {g : GameManager} (hg : Cons g) : (allIds g).Nodup :=
  (hg.nodup_iff).mpr fullDeck_ids_nodup

theorem cons_parts {g : GameManager} (hg : Cons g) :
    (g.pile.map cId).Nodup ∧ ((tableCards g.table).map cId).Nodup ∧
      (∀ x : TKey, x ∈ g.pile.map cId → x ∈ (tableCards g.table).map cId → False) := by
  have hnd := allIds_nodup hg
  unfold allIds at hnd
  rcases List.nodup_append.mp hnd with ⟨h1, hK, hdis1⟩
  rcases List.nodup_append.mp h1 with ⟨h2, hT, hdis2⟩
  rcases List.nodup_append.mp h2 with ⟨hA, hP, hdis3⟩
  refine ⟨hP, hT, ?_⟩
  intro x hx hxT
  exact hdis2 (List.mem_append.mpr (Or.inr hx)) hxT

theorem loc_distinct {g : GameManager} (hg : Cons g) {a b : Card}
    (ha : cardLoc g a) (hb : cardLoc g b) (hne : a ≠ b) : cId a ≠ cId b := by
  obtain ⟨hP, hT, hPT⟩ := cons_parts hg
  intro hid
  rcases ha with ha | ⟨pa, hpa, _⟩ <;> rcases hb with hb | ⟨pb, hpb, _⟩
  · have hma := mem_of_pileLoc ha
    have hmb := mem_of_pileLoc hb
    exact hne (List.inj_on_of_nodup_map hP hma hmb hid)
  · have hma := mem_of_pileLoc ha
    have hmb := mem_tableCards_of_val hpb
    apply hPT (cId a) (List.mem_map_of_mem cId hma)
    rw [hid]
    exact List.mem_map_of_mem cId hmb
  · have hma := mem_tableCards_of_val hpa
    have hmb := mem_of_pileLoc hb
    apply hPT (cId b) (List.mem_map_of_mem cId hmb)
    rw [← hid]
    exact List.mem_map_of_mem cId hma
  · have hma := mem_tableCards_of_val hpa
    have hmb := mem_tableCards_of_val hpb
    exact hne (List.inj_on_of_nodup_map hT hma hmb hid)

theorem not_mem_pile_of_table {g : GameManager} (hg : Cons g) {p : Nat} {c : Card}
    (hp : (dictValues g.table.cards)[p]? = some (some c)) : c ∉ g.pile := by
  obtain ⟨_, _, hPT⟩ := cons_parts hg
  intro hmem
  exact hPT (cId c) (List.mem_map_of_mem cId hmem)
    (List.mem_map_of_mem cId (mem_tableCards_of_val hp))

theorem pileRemove_keep {cs cs2 : List Card} {c d : Card}
    (h : DiscardPile.remove cs c = some cs2) (hne : d ≠ c)
    (hd : cs.getLast? = some d ∨ secondLast cs = some d) :
    cs2.getLast? = some d ∨ secondLast cs2 = some d := by
  unfold DiscardPile.remove at h
  split at h
  · cases h
  · split at h
    · next hl =>
      cases Option.some.inj h
      rcases hd with hdl | hds
      · exfalso
        apply hne
        have := hdl.symm.trans hl
        simpa using this
      · have hlen2 : 2 ≤ cs.length := by
          unfold secondLast at hds
          by_contra hc2
          rw [if_pos (by omega)] at hds
          cases hds
        unfold secondLast at hds
        rw [if_neg (by omega)] at hds
        left
        rw [List.getLast?_eq_getElem?, List.length_dropLast, List.dropLast_eq_take,
          List.getElem?_take_of_lt (by omega)]
        rw [show cs.length - 1 - 1 = cs.length - 2 from by omega]
        exact hds
    · split at h
      · next h2 =>
        cases Option.some.inj h
        obtain ⟨hlen, hsl⟩ := h2
        rcases hd with hdl | hds
        · left
          unfold popSecondLast
          rw [List.getLast?_eq_getElem?] at hdl ⊢
          have hlent : (cs.take (cs.length - 2)).length = cs.length - 2 := by
            rw [List.length_take]
            omega
          have hlend : (cs.drop (cs.length - 1)).length = 1 := by
            rw [List.length_drop]
            omega
          rw [List.length_append, hlent, hlend,
            List.getElem?_append_right (by omega), hlent]
          rw [show cs.length - 2 + 1 - 1 - (cs.length - 2) = 0 from by omega,
            List.getElem?_drop]
          rw [show cs.length - 1 + 0 = cs.length - 1 from by omega]
          exact hdl
        · exfalso
          apply hne
          have := hds.symm.trans hsl
          simpa using this
      · cases h

/-- The uncover writes of a removal leave every already-exposed slot unchanged. -/
theorem postUncoverVals_exposed {vals : List (Option Card)} {lre : Bool} {nR p q : Nat}
    {d : Card} (hq : vals[q]? = some (some d)) (hd : d.isCovered = false) :
    (postUncoverVals vals lre nR p)[q]? = some (some d) := by
  simp only [postUncoverVals]
  split
  · exact uncovVals_exposed hq hd
  · split
    · split
      · exact uncovVals_exposed (uncovVals_exposed hq hd) hd
      · exact uncovVals_exposed hq hd
    · split
      · exact uncovVals_exposed hq hd
      · exact hq

set_option maxHeartbeats 1000000 in
/-- `GameManager._removeCard` on a card located where `selectCard` found it:
it succeeds, preserves the invariant and the tableau keys, leaves the draw pile
and the selection flag alone, and keeps every other located card locatable. -/
theorem removeCard_sound {g : GameManager} {c : Card}
    (hg : GInv g) (hloc : cardLoc g c) :
    ∃ g2 : GameManager, removeCard g c = some g2 ∧ GInv g2 ∧
      g2.deck = g.deck ∧ g2.isPile2ndSelected = g.isPile2ndSelected ∧
      dictKeys g2.table.cards = dictKeys g.table.cards ∧
      ∀ d : Card, cId d ≠ cId c → cardLoc g d → cardLoc g2 d := by
  rcases hloc with hpl | ⟨p, hp, hunc⟩
  · obtain ⟨cs2, hrem⟩ := pileRemove_of_loc hpl
    have hperm := pileRemove_perm hrem
    have hcons0 : (g.deck.map cId ++ g.pile.map cId ++ (tableCards g.table).map cId
        ++ g.comp.map cId).Perm (fullDeck.map cId) := hg.1
    have hcons2 : Cons { g with
        pile := cs2, comp := Deck.put g.comp { c with isCovered := true } } := by
      unfold Cons allIds Deck.put
      show ((g.deck.map cId) ++ cs2.map cId ++ (tableCards g.table).map cId
          ++ ((g.comp ++ [{ c with isCovered := true }]).map cId)).Perm (fullDeck.map cId)
      rw [List.map_append]
      exact (count_shuffle_pile (hperm.map cId)).trans hcons0
    refine ⟨{ g with pile := cs2, comp := Deck.put g.comp { c with isCovered := true } },
      ?_, ⟨hcons2, hg.2⟩, rfl, rfl, rfl, ?_⟩
    · unfold removeCard
      rw [hrem]
    · intro d hdne hdloc
      rcases hdloc with hdp | ⟨q, hq, hqunc⟩
      · exact Or.inl (pileRemove_keep hrem (fun he => hdne (congrArg cId he)) hdp)
      · exact Or.inr ⟨q, hq, hqunc⟩
  · have hnotmem := not_mem_pile_of_table hg.1 hp
    have hremnone := pileRemove_none_of_notmem hnotmem
    have hy0 : (g.table.lastRowExists && (rowOf p == g.table.nRows)) = true → rowOf p ≠ 0 := by
      intro hbr
      obtain ⟨hlre, h6⟩ : g.table.lastRowExists = true ∧ rowOf p = g.table.nRows := by
        simpa using hbr
      rcases (tableInv_iff g.table).mp hg.2 with ⟨_, _, _, hstruct, _, _⟩
      have hstr : g.table.nRows = 6 ∧ g.table.nCards = 27 := by simpa [hlre] using hstruct
      omega
    obtain ⟨t2, hrm, hvals, hkeys, _, _, _, hInv2⟩ := remove_spec g.table c p hg.2 hp hunc
    have hpost : (postUncoverVals (dictValues g.table.cards) g.table.lastRowExists
        g.table.nRows p)[p]? = some (some c) := postUncoverVals_at_p hp hy0
    have hTperm : ((tableCards g.table).map cId).Perm
        (cId c :: (tableCards t2).map cId) := by
      rw [tableCards_ids, tableCards_ids, hvals]
      have hcongr : idsOfVals (dictValues g.table.cards)
          = idsOfVals (postUncoverVals (dictValues g.table.cards)
              g.table.lastRowExists g.table.nRows p) :=
        (idsOfVals_congr (postUncoverVals_mapIds (dictValues g.table.cards)
          g.table.lastRowExists g.table.nRows p)).symm
      rw [hcongr]
      exact idsOfVals_set_none hpost
    have hcons0 : (g.deck.map cId ++ g.pile.map cId ++ (tableCards g.table).map cId
        ++ g.comp.map cId).Perm (fullDeck.map cId) := hg.1
    have hcons2 : Cons { g with
        table := t2, comp := Deck.put g.comp { c with isCovered := true } } := by
      unfold Cons allIds Deck.put
      show (g.deck.map cId ++ g.pile.map cId ++ (tableCards t2).map cId
          ++ ((g.comp ++ [{ c with isCovered := true }]).map cId)).Perm (fullDeck.map cId)
      rw [List.map_append]
      exact (count_shuffle_table hTperm).trans hcons0
    refine ⟨{ g with table := t2, comp := Deck.put g.comp { c with isCovered := true } },
      ?_, ⟨hcons2, hInv2⟩, rfl, rfl, hkeys, ?_⟩
    · unfold removeCard
      rw [hremnone, hrm]
    · intro d hdne hdloc
      rcases hdloc with hdp | ⟨q, hq, hqunc⟩
      · exact Or.inl hdp
      · refine Or.inr ⟨q, ?_, hqunc⟩
        have hqp : q ≠ p := by
          intro he
          rw [he] at hq
          have hcd : c = d := by
            have h2 := hp.symm.trans hq
            simpa using h2
          exact hdne (congrArg cId hcd.symm)
        show (dictValues t2.cards)[q]? = some (some d)
        rw [hvals, List.getElem?_set_ne (Ne.symm hqp)]
        exact postUncoverVals_exposed hq hqunc

theorem draw_pres {g g2 : GameManager} (hg : GInv g) (h : drawAndDiscard g = some g2) :
    GInv g2 ∧ g2.table = g.table := by
  unfold drawAndDiscard at h
  rcases hd : Deck.draw g.deck with _ | pr
  · rw [hd] at h
    cases h
  · obtain ⟨c, deck2⟩ := pr
    simp only [hd] at h
    unfold Deck.draw at hd
    rcases hl : g.deck.getLast? with _ | c0
    · rw [hl] at hd
      cases hd
    · simp only [hl, Option.some.injEq, Prod.mk.injEq] at hd
      obtain ⟨hc, hdk⟩ := hd
      have hg2 : g2 = { g with deck := deck2, pile := Deck.put g.pile c } :=
        (Option.some.inj h).symm
      subst hg2
      subst hc
      subst hdk
      refine ⟨⟨?_, hg.2⟩, rfl⟩
      have hcons0 : (g.deck.map cId ++ g.pile.map cId ++ (tableCards g.table).map cId
          ++ g.comp.map cId).Perm (fullDeck.map cId) := hg.1
      have hlast : g.deck[g.deck.length - 1]? = some c0 := by
        rw [← List.getLast?_eq_getElem?]
        exact hl
      have hdec : g.deck = g.deck.dropLast ++ [c0] := by
        have h1 := list_decomp hlast
        have h2 : g.deck.drop (g.deck.length - 1 + 1) = [] := by
          apply List.drop_eq_nil_of_le
          omega
        rw [h2, ← List.dropLast_eq_take] at h1
        exact h1
      have hA : g.deck.map cId = g.deck.dropLast.map cId ++ [cId c0] := by
        conv_lhs => rw [hdec]
        rw [List.map_append]
        rfl
      unfold Cons allIds Deck.put
      show (g.deck.dropLast.map cId ++ ((g.pile ++ [{ c0 with isCovered := false }]).map cId)
          ++ (tableCards g.table).map cId ++ g.comp.map cId).Perm (fullDeck.map cId)
      rw [List.map_append]
      exact (count_shuffle_draw hA).trans hcons0

theorem pairCommit_pres {g : GameManager} {a b : Card} {g2 : GameManager}
    (hg : GInv g) (ha : cardLoc g a) (hb : cardLoc g b) (hne : a ≠ b)
    (h : pairCommit g a b = .ok g2) :
    GInv g2 ∧ dictKeys g2.table.cards = dictKeys g.table.cards := by
  obtain ⟨gA, hrmA, hgA, _, _, hkA, htrA⟩ := removeCard_sound hg ha
  have hbid : cId b ≠ cId a := loc_distinct hg.1 hb ha (fun he => hne he.symm)
  have hbA : cardLoc gA b := htrA b hbid hb
  obtain ⟨gB, hrmB, hgB, _, _, hkB, _⟩ := removeCard_sound hgA hbA
  unfold pairCommit at h
  simp only [hrmA, hrmB] at h
  have hg2 : gB = g2 := Except.ok.inj h
  subst hg2
  exact ⟨hgB, hkB.trans hkA⟩

theorem pairCommit_err {g : GameManager} {a b : Card} {e : Err} {gE : GameManager}
    (h : pairCommit g a b = .error (e, gE)) : e = .pyRemoveError := by
  unfold pairCommit at h
  rcases h1 : removeCard g a with _ | g1
  · simp only [h1, Except.error.injEq, Prod.mk.injEq] at h
    exact h.1.symm
  · simp only [h1] at h
    rcases h2 : removeCard g1 b with _ | g2
    · simp only [h2, Except.error.injEq, Prod.mk.injEq] at h
      exact h.1.symm
    · simp only [h2] at h
      cases h

set_option maxHeartbeats 1000000 in
/-- A recoverable (`InvalidActionErr`) rejection of a pairing attempt leaves
every collection exactly as it was: only the selection flag can differ. -/
theorem pairCards_err_frame {g0 : GameManager} {s : String} {e : Err} {gE : GameManager}
    (h : pairCards g0 s = .error (e, gE)) (hrec : e.isRecoverable = true) :
    gE.deck = g0.deck ∧ gE.pile = g0.pile ∧ gE.table = g0.table ∧ gE.comp = g0.comp := by
  simp only [pairCards] at h
  split at h
  · simp only [Except.error.injEq, Prod.mk.injEq] at h
    obtain ⟨he, hgE⟩ := h
    subst he
    simp [Err.isRecoverable] at hrec
  · split at h
    · simp only [Except.error.injEq, Prod.mk.injEq] at h
      obtain ⟨he, hgE⟩ := h
      subst hgE
      exact ⟨rfl, rfl, rfl, rfl⟩
    · split at h
      · split at h
        · simp only [Except.error.injEq, Prod.mk.injEq] at h
          obtain ⟨he, hgE⟩ := h
          subst hgE
          exact ⟨rfl, rfl, rfl, rfl⟩
        · split at h
          · simp only [Except.error.injEq, Prod.mk.injEq] at h
            obtain ⟨he, hgE⟩ := h
            subst he
            simp [Err.isRecoverable] at hrec
          · simp at h
      · split at h
        · simp only [Except.error.injEq, Prod.mk.injEq] at h
          obtain ⟨he, hgE⟩ := h
          subst hgE
          exact ⟨rfl, rfl, rfl, rfl⟩
        · split at h
          · simp only [Except.error.injEq, Prod.mk.injEq] at h
            obtain ⟨he, hgE⟩ := h
            subst hgE
            exact ⟨rfl, rfl, rfl, rfl⟩
          · split at h
            · simp only [Except.error.injEq, Prod.mk.injEq] at h
              obtain ⟨he, hgE⟩ := h
              subst he
              simp [Err.isRecoverable] at hrec
            · split at h
              · simp only [Except.error.injEq, Prod.mk.injEq] at h
                obtain ⟨he, hgE⟩ := h
                subst hgE
                exact ⟨rfl, rfl, rfl, rfl⟩
              · split at h
                · simp only [Except.error.injEq, Prod.mk.injEq] at h
                  obtain ⟨he, hgE⟩ := h
                  subst hgE
                  exact ⟨rfl, rfl, rfl, rfl⟩
                · split at h
                  · simp only [Except.error.injEq, Prod.mk.injEq] at h
                    obtain ⟨he, hgE⟩ := h
                    subst hgE
                    exact ⟨rfl, rfl, rfl, rfl⟩
                  · split at h
                    · split at h
                      · simp only [Except.error.injEq, Prod.mk.injEq] at h
                        obtain ⟨he, hgE⟩ := h
                        subst he
                        simp [Err.isRecoverable] at hrec
                      · split at h
                        · simp only [Except.error.injEq, Prod.mk.injEq] at h
                          obtain ⟨he, hgE⟩ := h
                          subst hgE
                          exact ⟨rfl, rfl, rfl, rfl⟩
                        · have hpe := pairCommit_err h
                          subst hpe
                          simp [Err.isRecoverable] at hrec
                    · split at h
                      · split at h
                        · simp only [Except.error.injEq, Prod.mk.injEq] at h
                          obtain ⟨he, hgE⟩ := h
                          subst he
                          simp [Err.isRecoverable] at hrec
                        · split at h
                          · simp only [Except.error.injEq, Prod.mk.injEq] at h
                            obtain ⟨he, hgE⟩ := h
                            subst hgE
                            exact ⟨rfl, rfl, rfl, rfl⟩
                          · have hpe := pairCommit_err h
                            subst hpe
                            simp [Err.isRecoverable] at hrec
                      · have hpe := pairCommit_err h
                        subst hpe
                        simp [Err.isRecoverable] at hrec

set_option maxHeartbeats 1000000 in
/-- A successful pairing action preserves the global invariant and the tableau
key list. -/
theorem pairCards_ok_pres {g0 : GameManager} {s : String} {g2 : GameManager}
    (hg : GInv g0) (h : pairCards g0 s = .ok g2) :
    GInv g2 ∧ dictKeys g2.table.cards = dictKeys g0.table.cards := by
  simp only [pairCards] at h
  split at h
  · cases h
  · split at h
    · cases h
    · next first fl1 h1 =>
      have hloc1pre := selectCard_loc h1
      have hloc1 : cardLoc g0 first := hloc1pre
      split at h
      · split at h
        · cases h
        · split at h
          · cases h
          · next gA h4 =>
            have hg1 : GInv { g0 with isPile2ndSelected := fl1 } := hg
            have hloc1b : cardLoc { g0 with isPile2ndSelected := fl1 } first := hloc1
            obtain ⟨gA2, hrmA, hgA, _, _, hkA, _⟩ := removeCard_sound hg1 hloc1b
            have hAeq : gA2 = gA := Option.some.inj (hrmA.symm.trans h4)
            subst hAeq
            have hg2e : gA2 = g2 := Except.ok.inj h
            subst hg2e
            exact ⟨hgA, hkA⟩
      · split at h
        · cases h
        · split at h
          · cases h
          · split at h
            · cases h
            · split at h
              · cases h
              · next second fl2 h3 =>
                have hloc2pre := selectCard_loc h3
                have hloc2 : cardLoc g0 second := hloc2pre
                split at h
                · cases h
                · split at h
                  · cases h
                  · next hnepair =>
                    have hgc : GInv { g0 with isPile2ndSelected := fl2 } := hg
                    have hlocA : cardLoc { g0 with isPile2ndSelected := fl2 } first := hloc1
                    have hlocB : cardLoc { g0 with isPile2ndSelected := fl2 } second := hloc2
                    split at h
                    · split at h
                      · cases h
                      · split at h
                        · cases h
                        · obtain ⟨hginv, hkeys⟩ := pairCommit_pres hgc hlocA hlocB hnepair h
                          exact ⟨hginv, hkeys⟩
                    · split at h
                      · split at h
                        · cases h
                        · split at h
                          · cases h
                          · obtain ⟨hginv, hkeys⟩ := pairCommit_pres hgc hlocA hlocB hnepair h
                            exact ⟨hginv, hkeys⟩
                      · obtain ⟨hginv, hkeys⟩ := pairCommit_pres hgc hlocA hlocB hnepair h
                        exact ⟨hginv, hkeys⟩

/-- Every completed action preserves the global invariant and the tableau key
list. -/
theorem step_pres {g g2 : GameManager} (hg : GInv g) (hstep : Step g g2) :
    GInv g2 ∧ dictKeys g2.table.cards = dictKeys g.table.cards := by
  cases hstep with
  | draw _ hd =>
    obtain ⟨hgi, htab⟩ := draw_pres hg hd
    exact ⟨hgi, by rw [htab]⟩
  | pairOk _ s hok => exact pairCards_ok_pres hg hok
  | pairErr _ s e herr hrec =>
    obtain ⟨hdeck, hpile, htable, hcomp⟩ := pairCards_err_frame herr hrec
    refine ⟨⟨?_, ?_⟩, by rw [htable]⟩
    · unfold Cons allIds
      rw [hdeck, hpile, htable, hcomp]
      exact hg.1
    · rw [htable]
      exact hg.2

/-- Every reachable game state satisfies conservation and the tableau
invariant. -/
theorem reachable_ginv {g : GameManager} (h : Reachable g) : GInv g := by
  induction h with
  | init deck hperm => exact init_ginv deck hperm
  | step g g2 hr hstep ih => exact (step_pres ih hstep).1

/-! ## Concrete states for the claim instances -/

def t0ex : Table := (Table.init fullDeck).1

def cexD2 : Card := { suit := .Diamonds, rank := 2, isCovered := false }

def t1ex : Table := (Table.remove t0ex cexD2).getD t0ex

def g0ex : GameManager := GameManager.init fullDeck

def g1ex : GameManager := (drawAndDiscard g0ex).getD g0ex

def g2ex : GameManager := (drawAndDiscard g1ex).getD g0ex

def g3ex : GameManager := ((drawAndDiscard g1ex).bind drawAndDiscard).getD g0ex

def g4ex : GameManager := (drawAndDiscard g3ex).getD g0ex

def hearts6ex : Card := { suit := .Hearts, rank := 6, isCovered := false }

/-! ## The claims -/

/-- C3: after every completed action the draw pile, discard pile, occupied
tableau slots and completed pile hold exactly the 40 card identities: they are
a permutation of the full deck's identity list, no identity is duplicated, and
the four sizes sum to 40. -/
theorem claim_C3 (g : GameManager) (h : Reachable g) :
    (allIds g).Perm (fullDeck.map cId) ∧ (allIds g).Nodup ∧
      g.deck.length + g.pile.length + (tableCards g.table).length + g.comp.length = 40 := by
  have hg := reachable_ginv h
  refine ⟨hg.1, allIds_nodup hg.1, ?_⟩
  have hlen := hg.1.length_eq
  unfold allIds at hlen
  simp only [List.length_append, List.length_map] at hlen
  have hfd : fullDeck.length = 40 := by decide
  omega

/-- C3 witness: the conservation statement at a freshly initialized game. -/
theorem claim_C3_witness :
    (allIds (GameManager.init fullDeck)).Perm (fullDeck.map cId) ∧
      (allIds (GameManager.init fullDeck)).Nodup ∧
      (GameManager.init fullDeck).deck.length + (GameManager.init fullDeck).pile.length +
        (tableCards (GameManager.init fullDeck).table).length +
        (GameManager.init fullDeck).comp.length = 40 :=
  claim_C3 (GameManager.init fullDeck) (Reachable.init fullDeck (List.Perm.refl fullDeck))

/-- C4 (corrected): construction computes `nCards = (nRows+1)*nRows/2 + nRows
= 27`, consumes exactly the first 27 cards of the draw-pile list — the FRONT,
i.e. the opposite end from the tail that `Deck.draw` pops — in row-major
order, and leaves the last 13 list entries (those nearest the draw end) as the
remaining draw pile. -/
theorem claim_C4 (deck : List Card) (hnd : ((deck.take 27).map cId).Nodup) :
    (Table.init deck).1.nCards = (6 + 1) * 6 / 2 + 6 ∧
    (Table.init deck).2 = deck.drop 27 ∧
    dictKeys (Table.init deck).1.cards = (deck.take 27).map cId := by
  rw [tableInit_eq deck hnd]
  exact ⟨rfl, rfl, initKeys (deck.take 27)⟩

/-- C4 witness: the construction characterization at the unshuffled deck. -/
theorem claim_C4_witness :
    (Table.init fullDeck).1.nCards = (6 + 1) * 6 / 2 + 6 ∧
    (Table.init fullDeck).2 = fullDeck.drop 27 ∧
    dictKeys (Table.init fullDeck).1.cards = (fullDeck.take 27).map cId :=
  claim_C4 fullDeck (by decide)

/-- C4 counterexample: the card at the draw end (`Deck.draw` would pop the ten
of Clubs) is still the top of the post-construction draw pile and is absent
from the tableau, while the front card (the ace of Spades) went into the
tableau — construction consumes the opposite end from the one `Deck.draw`
pops. -/
theorem claim_C4_cex :
    Deck.draw fullDeck =
      some ({ suit := .Clubs, rank := 10, isCovered := false }, fullDeck.dropLast) ∧
    (Table.init fullDeck).2.getLast? =
      some { suit := .Clubs, rank := 10, isCovered := true } ∧
    dictGet (Table.init fullDeck).1.cards (Suit.Clubs, 10) = none ∧
    dictGet (Table.init fullDeck).1.cards (Suit.Spades, 1) =
      some (some { suit := .Spades, rank := 1, isCovered := true }) := by
  decide

/-- C6: a pairing attempt rejected with any recoverable error mutates nothing:
at the moment the error is raised the draw pile, discard pile, tableau and
completed pile are exactly those of the pre-action state. -/
theorem claim_C6 (g0 : GameManager) (inpt : String) (e : Err) (gE : GameManager)
    (h : pairCards g0 inpt = .error (e, gE)) (hrec : e.isRecoverable = true) :
    gE.deck = g0.deck ∧ gE.pile = g0.pile ∧ gE.table = g0.table ∧ gE.comp = g0.comp :=
  pairCards_err_frame h hrec

/-- C6 witness: the frame property at a fresh game rejecting an unparseable
specifier. -/
theorem claim_C6_witness :
    ({ g0ex with isPile2ndSelected := false } : GameManager).deck = g0ex.deck ∧
    ({ g0ex with isPile2ndSelected := false } : GameManager).pile = g0ex.pile ∧
    ({ g0ex with isPile2ndSelected := false } : GameManager).table = g0ex.table ∧
    ({ g0ex with isPile2ndSelected := false } : GameManager).comp = g0ex.comp :=
  claim_C6 g0ex "zz" (.invalidAction .cardSelection .couldNotIdentify)
    { g0ex with isPile2ndSelected := false } (by rfl) (by decide)

/-- C9: in every reachable game state, `Table.remove` applied to a selectable
tableau card (present and face-up, as `Table.select` returns it) terminates
without raising — every uncover write it performs finds an occupied slot — and
preserves the tableau invariant. -/
theorem claim_C9 (g : GameManager) (s : Suit) (r : Nat) (c : Card)
    (h : Reachable g) (hsel : Table.select g.table s r = some c) :
    ∃ t2 : Table, Table.remove g.table c = some t2 ∧ TableInv t2 := by
  have hg := reachable_ginv h
  obtain ⟨p, hp, hunc⟩ := tableSelect_loc hsel
  obtain ⟨t2, hrm, _, _, _, _, _, hInv2⟩ := remove_spec g.table c p hg.2 hp hunc
  exact ⟨t2, hrm, hInv2⟩

/-- C9 witness: removing the selectable two of Diamonds from a fresh tableau. -/
theorem claim_C9_witness :
    ∃ t2 : Table, Table.remove (GameManager.init fullDeck).table cexD2 = some t2 ∧
      TableInv t2 :=
  claim_C9 (GameManager.init fullDeck) Suit.Diamonds 2 cexD2
    (Reachable.init fullDeck (List.Perm.refl fullDeck)) (by decide)

/-- C10: the tableau key list (key set and iteration order, hence every card's
linear position and the whole coverage graph) never changes after
construction: every completed action from a reachable state leaves it
identical, and it always holds exactly the 27 construction slots. -/
theorem claim_C10 (g g2 : GameManager) (h : Reachable g) (hstep : Step g g2) :
    dictKeys g2.table.cards = dictKeys g.table.cards ∧ g2.table.cards.length = 27 := by
  have hg := reachable_ginv h
  obtain ⟨hg2, hk⟩ := step_pres hg hstep
  exact ⟨hk, ((tableInv_iff g2.table).mp hg2.2).1⟩

/-- C10 witness: a draw step from a fresh game leaves the key list unchanged. -/
theorem claim_C10_witness :
    dictKeys g1ex.table.cards = dictKeys g0ex.table.cards ∧ g1ex.table.cards.length = 27 :=
  claim_C10 g0ex g1ex (Reachable.init fullDeck (List.Perm.refl fullDeck))
    (Step.draw g0ex g1ex (by decide))

/-- C1 (corrected): while the special last row still exists and the removed
card's derived row index `y` equals `nRows`, the removed card is a card of the
SPECIAL row (positions 21-26), not of the triangle's bottom row (15-20), and
exactly one card is uncovered by the removal: the removed card's single
triangle-bottom-row counterpart at the mirrored index `p - 6`; no other slot's
flag changes before the removed slot is blanked. -/
theorem claim_C1 (t : Table) (c : Card) (p : Nat) (hInv : TableInv t)
    (hp : (dictValues t.cards)[p]? = some (some c)) (hunc : c.isCovered = false)
    (hbr : (t.lastRowExists && (rowOf p == t.nRows)) = true) :
    (21 ≤ p ∧ p < 27) ∧ ¬ (15 ≤ p ∧ p < 21) ∧ (15 ≤ p - 6 ∧ p - 6 < 21) ∧
      ∃ t2 : Table, Table.remove t c = some t2 ∧
        dictValues t2.cards = (uncovVals (dictValues t.cards) (p - 6)).set p none := by
  rcases (tableInv_iff t).mp hInv with ⟨hlen, _, _, hstruct, _, _⟩
  obtain ⟨hlre, h6⟩ : t.lastRowExists = true ∧ rowOf p = t.nRows := by simpa using hbr
  have hstr : t.nRows = 6 ∧ t.nCards = 27 := by simpa [hlre] using hstruct
  have hplt : p < 27 := by
    rcases List.getElem?_eq_some_iff.mp hp with ⟨hlt, _⟩
    rw [dictValues_length, hlen] at hlt
    exact hlt
  have h21 : 21 ≤ p := (rowGeom p hplt).mpr (by omega)
  obtain ⟨t2, hrm, hvals, _, _, _, _, _⟩ := remove_spec t c p hInv hp hunc
  refine ⟨⟨h21, hplt⟩, by omega, ⟨by omega, by omega⟩, t2, hrm, ?_⟩
  rw [hvals]
  simp only [postUncoverVals]
  rw [if_pos hbr]
  rw [show p - rowOf p = p - 6 from by omega]

/-- C1 witness: the special-row branch at position 21 of a fresh tableau. -/
theorem claim_C1_witness :
    (21 ≤ 21 ∧ 21 < 27) ∧ ¬ (15 ≤ 21 ∧ 21 < 21) ∧ (15 ≤ 21 - 6 ∧ 21 - 6 < 21) ∧
      ∃ t2 : Table, Table.remove t0ex cexD2 = some t2 ∧
        dictValues t2.cards = (uncovVals (dictValues t0ex.cards) (21 - 6)).set 21 none :=
  claim_C1 t0ex cexD2 21 (by decide) (by decide) (by decide) (by decide)

/-- C1 counterexample: removing the two of Diamonds (position 21) from a fresh
tableau fires the special branch (`lastRowExists` and `rowOf 21 = nRows`), yet
the removed card sits in the SPECIAL row, not in the triangle's bottom row
(`¬ (15 ≤ 21 ∧ 21 < 21)`), and the card it uncovers is the triangle-bottom-row
card at slot 15 (the six of Hearts), not a special-row card. -/
theorem claim_C1_cex :
    t0ex.lastRowExists = true ∧ rowOf 21 = t0ex.nRows ∧
    (dictValues t0ex.cards)[21]? = some (some cexD2) ∧ cexD2.isCovered = false ∧
    ¬ (15 ≤ 21 ∧ 21 < 21) ∧
    Table.remove t0ex cexD2 = some t1ex ∧
    (dictValues t0ex.cards)[15]? =
      some (some { suit := .Hearts, rank := 6, isCovered := true }) ∧
    (dictValues t1ex.cards)[15]? = some (some hearts6ex) := by
  decide

/-- C7 (corrected): `Card.__init__` performs no rank validation at all: it
succeeds for every rank below 12 (rank 0 prints as a numeral, rank 11 even
renders as "Ace") and raises only an `IndexError` for rank 12 and above; the
sole [1,10] range check in the program is the separate `intoRank` helper used
on parsed numerals. -/
theorem claim_C7 (s : Suit) (r : Nat) :
    (Card.init s r).isSome = decide (r < 12) ∧
    (intoRank r).isSome = decide (1 ≤ r ∧ r ≤ 10) := by
  constructor
  · unfold Card.init getRankName
    have hmap : ∀ o : Option String, (Option.map (fun _ : String =>
        ({ suit := s, rank := r, isCovered := true } : Card)) o).isSome = o.isSome := by
      intro o
      cases o <;> rfl
    rw [hmap]
    by_cases h1 : r = 1
    · subst h1
      decide
    · rw [if_neg h1]
      by_cases h7 : r > 7
      · rw [if_pos h7]
        have hfl : faceNames.length = 4 := by decide
        rcases Nat.lt_or_ge (r - 8) 4 with hlt | hge
        · have hgl : r - 8 < faceNames.length := by
            rw [show faceNames.length = 4 from by decide]
            omega
          have hsome : faceNames[r - 8]? = some (faceNames.get ⟨r - 8, hgl⟩) :=
            List.getElem?_eq_some_iff.mpr ⟨hgl, rfl⟩
          have hs : faceNames[r - 8]?.isSome = true := by
            rw [hsome]
            rfl
          rw [hs]
          symm
          rw [decide_eq_true_eq]
          omega
        · have hs : faceNames[r - 8]? = none := by
            apply List.getElem?_eq_none
            omega
          rw [hs]
          symm
          rw [show (none : Option String).isSome = false from rfl, decide_eq_false_iff_not]
          omega
      · rw [if_neg h7]
        symm
        rw [show (some (toString r)).isSome = true from rfl, decide_eq_true_eq]
        omega
  · unfold intoRank
    by_cases h : r < 1 ∨ r > 10
    · rw [if_pos h]
      symm
      rw [show (none : Option Nat).isSome = false from rfl, decide_eq_false_iff_not]
      omega
    · rw [if_neg h]
      symm
      rw [show (some r).isSome = true from rfl, decide_eq_true_eq]
      omega

/-- C7 counterexample: constructing a card of rank 11 succeeds (and even
renders as "Ace"), and rank 0 succeeds too, although both are outside [1,10];
only `intoRank` rejects 11. -/
theorem claim_C7_cex :
    Card.init Suit.Spades 11 =
      some { suit := .Spades, rank := 11, isCovered := true } ∧
    getRankName 11 = some "Ace" ∧
    (Card.init Suit.Spades 0).isSome = true ∧
    intoRank 11 = none ∧ intoRank 0 = none := by
  decide

set_option maxHeartbeats 1000000 in
/-- C2: in the general (non-special-row) case of a removal at position `p`
with row `y = rowOf p` and column `x = p - comb y`, the removal succeeds and
the left covering neighbor at `p - y - 1` is uncovered iff `x ≠ 0` and slot
`p - 1` is already absent, while the right covering neighbor at `p - y` is
uncovered iff `x < y` and slot `p + 1` is already absent; a neighbor whose
guard fails keeps its card (and flag) unchanged. -/
theorem claim_C2 (t : Table) (c : Card) (p : Nat) (hInv : TableInv t)
    (hp : (dictValues t.cards)[p]? = some (some c)) (hunc : c.isCovered = false)
    (hbr : (t.lastRowExists && (rowOf p == t.nRows)) = false) :
    ∃ t2 : Table, Table.remove t c = some t2 ∧
      (p - comb (rowOf p) ≠ 0 → ∀ dL : Card,
        (dictValues t.cards)[p - rowOf p - 1]? = some (some dL) →
        (dictValues t2.cards)[p - rowOf p - 1]? =
          some (some (if (dictValues t.cards)[p - 1]? = some none
            then { dL with isCovered := false } else dL))) ∧
      (p - comb (rowOf p) < rowOf p → ∀ dR : Card,
        (dictValues t.cards)[p - rowOf p]? = some (some dR) →
        (dictValues t2.cards)[p - rowOf p]? =
          some (some (if (dictValues t.cards)[p + 1]? = some none
            then { dR with isCovered := false } else dR))) := by
  rcases (tableInv_iff t).mp hInv with ⟨hlen, hwk, hnd, hstruct, hout, hcov⟩
  have hvlen : (dictValues t.cards).length = 27 := by
    rw [dictValues_length]
    exact hlen
  have hplt : p < 27 := by
    rcases List.getElem?_eq_some_iff.mp hp with ⟨hlt, _⟩
    omega
  have hbr' : ¬ (t.lastRowExists && (rowOf p == t.nRows)) = true := by
    rw [hbr]
    simp
  have hlt21 : p < 21 := by
    by_contra hge
    have h6 : rowOf p = 6 := (rowGeom p hplt).mp (by omega)
    match hlre : t.lastRowExists with
    | true =>
      have hstr : t.nRows = 6 ∧ t.nCards = 27 := by simpa [hlre] using hstruct
      apply hbr'
      rw [hlre, h6, hstr.1]
      simp
    | false =>
      have hstr : t.nRows ≤ 6 ∧ t.nCards = comb t.nRows := by simpa [hlre] using hstruct
      have hc21 : comb t.nRows ≤ 21 := (combGeom t.nRows (by omega)).1
      have h2 := hout p hplt (by omega)
      rw [hp] at h2
      simp at h2
  obtain ⟨hgL, hgR, hxley, hyle5, hcomble, hylecomb⟩ := generalGeom p hlt21
  obtain ⟨t2, hrm, hvals, _, _, _, _, _⟩ := remove_spec t c p hInv hp hunc
  refine ⟨t2, hrm, ?_, ?_⟩
  · intro hx dL hdL
    have hx1 : 0 < p - comb (rowOf p) := Nat.pos_of_ne_zero hx
    rw [hvals, List.getElem?_set_ne (show p ≠ p - rowOf p - 1 from by omega)]
    simp only [postUncoverVals]
    rw [if_neg hbr']
    by_cases hw : (dictValues t.cards)[p - 1]? = some none
    · rw [if_pos hw]
      rw [if_pos (⟨hx, hw⟩ : p - comb (rowOf p) ≠ 0 ∧
        (dictValues t.cards)[p - 1]? = some none)]
      have hself := uncovVals_self hdL
      by_cases hr2 : p - comb (rowOf p) < rowOf p ∧ (dictValues t.cards)[p + 1]? = some none
      · rw [if_pos hr2,
          uncovVals_getElem_ne (show p - rowOf p - 1 ≠ p - rowOf p from by omega), hself]
      · rw [if_neg hr2, hself]
    · rw [if_neg hw]
      rw [if_neg (show ¬ (p - comb (rowOf p) ≠ 0 ∧
        (dictValues t.cards)[p - 1]? = some none) from fun hh => hw hh.2)]
      by_cases hr2 : p - comb (rowOf p) < rowOf p ∧ (dictValues t.cards)[p + 1]? = some none
      · rw [if_pos hr2,
          uncovVals_getElem_ne (show p - rowOf p - 1 ≠ p - rowOf p from by omega), hdL]
      · rw [if_neg hr2, hdL]
  · intro hxy dR hdR
    rw [hvals, List.getElem?_set_ne (show p ≠ p - rowOf p from by omega)]
    simp only [postUncoverVals]
    rw [if_neg hbr']
    have hv1 : (if p - comb (rowOf p) ≠ 0 ∧ (dictValues t.cards)[p - 1]? = some none
        then uncovVals (dictValues t.cards) (p - rowOf p - 1)
        else dictValues t.cards)[p - rowOf p]? = some (some dR) := by
      split
      · next hLc =>
        rw [uncovVals_getElem_ne (show p - rowOf p ≠ p - rowOf p - 1 from by
          have hx1 : 0 < p - comb (rowOf p) := Nat.pos_of_ne_zero hLc.1
          omega)]
        exact hdR
      · exact hdR
    by_cases hw2 : (dictValues t.cards)[p + 1]? = some none
    · rw [if_pos hw2]
      rw [if_pos (⟨hxy, hw2⟩ : p - comb (rowOf p) < rowOf p ∧
        (dictValues t.cards)[p + 1]? = some none)]
      exact uncovVals_self hv1
    · rw [if_neg hw2]
      rw [if_neg (show ¬ (p - comb (rowOf p) < rowOf p ∧
        (dictValues t.cards)[p + 1]? = some none) from fun hh => hw2 hh.2)]
      exact hv1

/-- C2 witness: removing the freshly exposed six of Hearts at position 15
(row 5, column 0) of the tableau obtained after one special-row removal. -/
theorem claim_C2_witness :
    ∃ t2 : Table, Table.remove t1ex hearts6ex = some t2 ∧
      (15 - comb (rowOf 15) ≠ 0 → ∀ dL : Card,
        (dictValues t1ex.cards)[15 - rowOf 15 - 1]? = some (some dL) →
        (dictValues t2.cards)[15 - rowOf 15 - 1]? =
          some (some (if (dictValues t1ex.cards)[15 - 1]? = some none
            then { dL with isCovered := false } else dL))) ∧
      (15 - comb (rowOf 15) < rowOf 15 → ∀ dR : Card,
        (dictValues t1ex.cards)[15 - rowOf 15]? = some (some dR) →
        (dictValues t2.cards)[15 - rowOf 15]? =
          some (some (if (dictValues t1ex.cards)[15 + 1]? = some none
            then { dR with isCovered := false } else dR))) :=
  claim_C2 t1ex hearts6ex 15 (by decide) (by decide) (by decide) (by decide)

/-- C8 (corrected): supplying more than two specifiers raises the
wrong-selection-count (`moreThanTwoSelected`) error only when the first
selection is not a rank-10 card; a rank-10 first selection bypasses the count
check entirely — the extra specifiers are ignored and the solo removal is
attempted, succeeding when possible and rejected with below-top-of-pile (never
the wrong-selection-count error) when the selection resolved to the pile's
second-from-top; supplying zero specifiers raises a raw, uncaught
`IndexError` rather than the wrong-selection-count error. -/
theorem claim_C8 (g0 : GameManager) (inpt : String) :
    (pySplit inpt = [] →
      pairCards g0 inpt = .error (.pyIndexError, { g0 with isPile2ndSelected := false })) ∧
    (∀ tok0 : String, ∀ first : Card, ∀ fl1 : Bool,
      (pySplit inpt)[0]? = some tok0 →
      selectCard { g0 with isPile2ndSelected := false } tok0 = .ok (first, fl1) →
      first.rank ≠ 10 → 2 < (pySplit inpt).length →
      pairCards g0 inpt = .error (.invalidAction .pairing .moreThanTwoSelected,
        { g0 with isPile2ndSelected := fl1 })) ∧
    (∀ tok0 : String, ∀ first : Card, ∀ g2 : GameManager,
      (pySplit inpt)[0]? = some tok0 →
      selectCard { g0 with isPile2ndSelected := false } tok0 = .ok (first, false) →
      first.rank = 10 →
      removeCard { g0 with isPile2ndSelected := false } first = some g2 →
      pairCards g0 inpt = .ok g2) ∧
    (∀ tok0 : String, ∀ first : Card,
      (pySplit inpt)[0]? = some tok0 →
      selectCard { g0 with isPile2ndSelected := false } tok0 = .ok (first, true) →
      first.rank = 10 →
      pairCards g0 inpt = .error (.invalidAction .cardSelection .belowTopOfPile,
        { g0 with isPile2ndSelected := true })) := by
  refine ⟨?_, ?_, ?_, ?_⟩
  · intro h0
    simp only [pairCards, h0, List.getElem?_nil]
  · intro tok0 first fl1 h0 hsel hr10 hlen
    simp only [pairCards, h0, hsel]
    rw [if_neg hr10]
    rw [if_neg (show ¬ (pySplit inpt).length < 2 from by omega)]
    rw [if_pos hlen]
  · intro tok0 first g2 h0 hsel hr10 hrm
    simp only [pairCards, h0, hsel]
    rw [if_pos hr10]
    rw [if_neg (show ¬ ((false : Bool) = true) from by simp)]
    simp only [hrm]
  · intro tok0 first h0 hsel hr10
    simp only [pairCards, h0, hsel]
    rw [if_pos hr10]
    rw [if_pos trivial]

/-- C8 witness: the empty input raises the raw index error; three specifiers
with a non-ten first card raise the wrong-selection-count error; three
specifiers led by the rank-10 top of the pile succeed as a solo removal; and
three specifiers led by a rank-10 second-from-top are rejected with
below-top-of-pile — in no case the wrong-selection-count error. -/
theorem claim_C8_witness :
    (pairCards g0ex "" = .error (.pyIndexError, { g0ex with isPile2ndSelected := false })) ∧
    (pairCards g0ex "2d 3d 4d" = .error (.invalidAction .pairing .moreThanTwoSelected,
      { g0ex with isPile2ndSelected := false })) ∧
    (pairCards g1ex "10c 2d 3d" = .ok { g1ex with
      isPile2ndSelected := false, pile := [],
      comp := [{ suit := Suit.Clubs, rank := 10, isCovered := true }] }) ∧
    (pairCards g2ex "10c 2d 3d" = .error (.invalidAction .cardSelection .belowTopOfPile,
      { g2ex with isPile2ndSelected := true })) :=
  ⟨(claim_C8 g0ex "").1 (by decide),
   (claim_C8 g0ex "2d 3d 4d").2.1 "2d" { suit := .Diamonds, rank := 2, isCovered := false }
     false (by decide) (by rfl) (by decide) (by decide),
   (claim_C8 g1ex "10c 2d 3d").2.2.1 "10c"
     { suit := .Clubs, rank := 10, isCovered := false }
     { g1ex with
       isPile2ndSelected := false, pile := [],
       comp := [{ suit := Suit.Clubs, rank := 10, isCovered := true }] }
     (by decide) (by rfl) (by decide) (by rfl),
   (claim_C8 g2ex "10c 2d 3d").2.2.2 "10c"
     { suit := .Clubs, rank := 10, isCovered := false }
     (by decide) (by rfl) (by decide)⟩

/-- C8 counterexample: with three specifiers whose first names the rank-10
top of the discard pile, the engine performs the solo removal and reports
success — no wrong-selection-count error is raised even though more than two
specifiers were given. -/
theorem claim_C8_cex :
    2 < (pySplit "10c 2d 3d").length ∧
    pairCards g1ex "10c 2d 3d" =
      .ok { g1ex with
        pile := [], comp := [{ suit := Suit.Clubs, rank := 10, isCovered := true }] } := by
  constructor
  · decide
  · rfl

set_option maxHeartbeats 1000000 in
/-- C5 (corrected): a pairing action that touches the discard pile's
second-from-top card enforces the cross-pile ordering constraint — the other
card must be the pile's current top, whichever of the two specifiers named
the second-from-top card, and a solo rank-10 removal whose selection resolved
to the second-from-top is rejected with the below-top error — but the
constraint is checked only after the rank-sum and self-pair validations: a
pair whose ranks do not sum to ten is rejected with the bad-rank-sum error
instead of below-top-of-pile. -/
theorem claim_C5 (g0 : GameManager) (inpt : String) :
    (∀ tok0 : String, ∀ first : Card,
      (pySplit inpt)[0]? = some tok0 →
      selectCard { g0 with isPile2ndSelected := false } tok0 = .ok (first, true) →
      first.rank = 10 →
      pairCards g0 inpt = .error (.invalidAction .cardSelection .belowTopOfPile,
        { g0 with isPile2ndSelected := true })) ∧
    (∀ tok0 tok1 : String, ∀ first second : Card, ∀ fl1 fl2 : Bool,
      pySplit inpt = [tok0, tok1] →
      selectCard { g0 with isPile2ndSelected := false } tok0 = .ok (first, fl1) →
      selectCard { g0 with isPile2ndSelected := fl1 } tok1 = .ok (second, fl2) →
      first.rank ≠ 10 →
      ((first.canPair second = false →
        pairCards g0 inpt = .error (.invalidAction .pairing
          (.badRankSum (first.rank + second.rank)),
          { g0 with isPile2ndSelected := fl2 })) ∧
       (first.canPair second = true → first ≠ second → fl1 = true →
        ∀ tp : Card, g0.pile.getLast? = some tp → second ≠ tp →
        pairCards g0 inpt = .error (.invalidAction .cardSelection .belowTopOfPile,
          { g0 with isPile2ndSelected := fl2 })) ∧
       (first.canPair second = true → first ≠ second → fl1 = false → fl2 = true →
        ∀ tp : Card, g0.pile.getLast? = some tp → first ≠ tp →
        pairCards g0 inpt = .error (.invalidAction .cardSelection .belowTopOfPile,
          { g0 with isPile2ndSelected := fl2 })))) := by
  constructor
  · intro tok0 first h0 hsel hr10
    simp only [pairCards, h0, hsel]
    rw [if_pos hr10]
    rw [if_pos trivial]
  · intro tok0 tok1 first second fl1 fl2 hsplit hsel1 hsel2 hr10
    have hsplit0 : (pySplit inpt)[0]? = some tok0 := by
      rw [hsplit]
      rfl
    have hsplit1 : (pySplit inpt)[1]? = some tok1 := by
      rw [hsplit]
      rfl
    have hsplitlen : (pySplit inpt).length = 2 := by
      rw [hsplit]
      rfl
    refine ⟨?_, ?_, ?_⟩
    · intro hcp
      simp only [pairCards, hsplit0, hsel1]
      rw [if_neg hr10]
      rw [if_neg (show ¬ (pySplit inpt).length < 2 from by omega)]
      rw [if_neg (show ¬ 2 < (pySplit inpt).length from by omega)]
      simp only [hsplit1, hsel2]
      simp only [hcp, Bool.not_false]
      rw [if_pos trivial]
    · intro hcp hne hfl1 tp htp hnetop
      subst hfl1
      simp only [pairCards, hsplit0, hsel1]
      rw [if_neg hr10]
      rw [if_neg (show ¬ (pySplit inpt).length < 2 from by omega)]
      rw [if_neg (show ¬ 2 < (pySplit inpt).length from by omega)]
      simp only [hsplit1, hsel2]
      simp only [hcp, Bool.not_true]
      rw [if_neg (show ¬ ((false : Bool) = true) from by simp)]
      rw [if_neg hne]
      rw [if_pos trivial]
      simp only [htp]
      rw [if_pos hnetop]
    · intro hcp hne hfl1 hfl2 tp htp hnetop
      subst hfl1
      subst hfl2
      simp only [pairCards, hsplit0, hsel1]
      rw [if_neg hr10]
      rw [if_neg (show ¬ (pySplit inpt).length < 2 from by omega)]
      rw [if_neg (show ¬ 2 < (pySplit inpt).length from by omega)]
      simp only [hsplit1, hsel2]
      simp only [hcp, Bool.not_true]
      rw [if_neg (show ¬ ((false : Bool) = true) from by simp)]
      rw [if_neg hne]
      rw [if_neg (show ¬ ((false : Bool) = true) from by simp)]
      rw [if_pos trivial]
      simp only [htp]
      rw [if_pos hnetop]

/-- C5 witness: after two draws the ten of Clubs is the pile's second-from-top
and its solo selection is rejected with the below-top error; after four draws
the second-from-top eight of Clubs paired with the tableau's two of Diamonds
(ranks summing to ten, the two of Diamonds not being the pile top) is
rejected with the below-top error whichever of the two specifiers named the
eight of Clubs. -/
theorem claim_C5_witness :
    (pairCards g2ex "10c" = .error (.invalidAction .cardSelection .belowTopOfPile,
      { g2ex with isPile2ndSelected := true })) ∧
    (pairCards g4ex "8c 2d" = .error (.invalidAction .cardSelection .belowTopOfPile,
      { g4ex with isPile2ndSelected := true })) ∧
    (pairCards g4ex "2d 8c" = .error (.invalidAction .cardSelection .belowTopOfPile,
      { g4ex with isPile2ndSelected := true })) :=
  ⟨(claim_C5 g2ex "10c").1 "10c" { suit := .Clubs, rank := 10, isCovered := false }
      (by decide) (by rfl) (by decide),
   ((claim_C5 g4ex "8c 2d").2 "8c" "2d"
        { suit := .Clubs, rank := 8, isCovered := false }
        { suit := .Diamonds, rank := 2, isCovered := false } true true
        (by decide) (by rfl) (by rfl) (by decide)).2.1
      (by decide) (by decide) (by rfl)
      { suit := .Clubs, rank := 7, isCovered := false } (by decide) (by decide),
   ((claim_C5 g4ex "2d 8c").2 "2d" "8c"
        { suit := .Diamonds, rank := 2, isCovered := false }
        { suit := .Clubs, rank := 8, isCovered := false } false true
        (by decide) (by rfl) (by rfl) (by decide)).2.2
      (by decide) (by decide) (by rfl) (by rfl)
      { suit := .Clubs, rank := 7, isCovered := false } (by decide) (by decide)⟩

/-- C5 counterexample: after three draws, the first selection "9c" resolves to
the discard pile's second-from-top nine of Clubs, the second card (the
tableau's three of Diamonds) is not the pile top, yet the engine raises the
bad-rank-sum error (9 + 3 = 12), not the below-top-of-pile error the claim
promises for every such violation. -/
theorem claim_C5_cex :
    1 < g3ex.pile.length ∧
    secondLast g3ex.pile = some { suit := .Clubs, rank := 9, isCovered := false } ∧
    selectCard { g3ex with isPile2ndSelected := false } "9c" =
      .ok ({ suit := .Clubs, rank := 9, isCovered := false }, true) ∧
    selectCard { g3ex with isPile2ndSelected := true } "3d" =
      .ok ({ suit := .Diamonds, rank := 3, isCovered := false }, true) ∧
    g3ex.pile.getLast? = some { suit := .Clubs, rank := 8, isCovered := false } ∧
    ({ suit := .Diamonds, rank := 3, isCovered := false } : Card) ≠
      { suit := .Clubs, rank := 8, isCovered := false } ∧
    pairCards g3ex "9c 3d" =
      .error (.invalidAction .pairing (.badRankSum 12),
        { g3ex with isPile2ndSelected := true }) := by
  refine ⟨by decide, by decide, by rfl, by rfl, by decide, by decide, by rfl⟩

end Sciolitario
